import Mathlib

/-!
# Verification development for the ideal-bundle planner

Shallow embedding of `packages/bundlers/default/src/DefaultBundler.js`
(`createIdealGraph` and its helpers) and proofs about it.

Modelling conventions:
* JavaScript `Map` values are insertion-ordered association lists
  (`List (κ × ν)`); `Map.set` keeps the original position of an updated key.
* JavaScript `Set` values are duplicate-free insertion-ordered lists;
  `Set.add` appends a missing element and is a no-op otherwise.
* In-place mutation of a bundle object stored in a graph is modelled by
  updating the graph node in place (`BGraph.updateNode`); the planner reads
  bundles back through the graph, so value threading coincides with the
  reference semantics on the runs examined here.
* `invariant(...)` / `nullthrows(...)` failures are `Except.error`; the whole
  planner is an `Except String` computation, so an invariant violation aborts
  with no partial plan.
* Graph traversals carry an explicit fuel argument; the planner instantiates
  it with a bound large enough for any input (the traversal visits each node
  at most once, and fuel only bounds the nesting depth of visits).
* `console.log`, `dumpGraphToGraphViz` and the `asset.filePath` debug
  plumbing have no effect on the produced plan and are omitted.
-/

inductive Priority where
  | sync
  | parallel
  | lazy
deriving DecidableEq, Repr

inductive BBehavior where
  | inline
  | isolated
deriving DecidableEq, Repr

/-- The slice of a Parcel `Asset` consumed by the planner.  `envContext` and
`envIsolated` flatten `asset.env.context` and `asset.env.isIsolated()`. -/
structure Asset where
  id : String
  type : String
  envContext : String
  envIsolated : Bool
  bundleBehavior : Option BBehavior
  statsSize : Nat
deriving DecidableEq, Repr

/-- The slice of a Parcel `Dependency` consumed by the planner. -/
structure Dep where
  id : String
  priority : Priority
  isEntry : Bool
  bundleBehavior : Option BBehavior
  needsStableName : Bool
  target : Option String
deriving DecidableEq, Repr

/-- The planner-owned `Bundle` record (DefaultBundler.js, `type Bundle`).
`target` and `env` keep the string payloads the planner copies around. -/
structure Bundle where
  assets : List Asset
  internalizedAssetIds : List String
  bundleBehavior : Option BBehavior
  needsStableName : Bool
  size : Nat
  sourceBundles : List Nat
  target : String
  env : String
  type : String
deriving DecidableEq, Repr

/-- The resolved bundler config (`ResolvedBundlerConfig`). -/
structure BundlerCfg where
  minBundles : Nat
  minBundleSize : Nat
  maxParallelRequests : Nat
deriving DecidableEq, Repr

/-! ## Container primitives

Modelled from the spec: `DefaultMap`, `setIntersect`, `setUnion` live in
`@parcel/utils`, which is part of this repository but not under `src/`.
The spec (§5, §9) fixes their semantics: insertion-stable hash sets and
maps, and auto-initializing default maps. -/

/-- JS `Set.add`: append if missing, keep insertion order. -/
def slAdd [DecidableEq α] (s : List α) (a : α) : List α :=
  if a ∈ s then s else s ++ [a]

/-- JS `Map.get`: first (unique) binding of the key. -/
def alGet [DecidableEq κ] : List (κ × ν) → κ → Option ν
  | [], _ => none
  | (k, v) :: m, k0 => if k = k0 then some v else alGet m k0

/-- JS `Map.set`: update in place (keeping the key's position) or append. -/
def alSet [DecidableEq κ] : List (κ × ν) → κ → ν → List (κ × ν)
  | [], k0, v0 => [(k0, v0)]
  | (k, v) :: m, k0, v0 =>
    if k = k0 then (k0, v0) :: m else (k, v) :: alSet m k0 v0

/-- Modelled from the spec: `DefaultMap.get` returns the stored value or
inserts and returns the default (auto-initializing read, spec §9). -/
def dmGet [DecidableEq κ] (m : List (κ × ν)) (k : κ) (dflt : ν) :
    ν × List (κ × ν) :=
  match alGet m k with
  | some v => (v, m)
  | none => (dflt, m ++ [(k, dflt)])

/-- Modelled from the spec: `setUnion(a, b)` builds a fresh set holding `a`
then `b` in insertion order. -/
def slUnion [DecidableEq α] (a b : List α) : List α := b.foldl slAdd a

/-- Modelled from the spec: `setIntersect(a, b)` restricts `a` in place to
the elements also in `b`, keeping the order of `a`. -/
def slIntersect [DecidableEq α] (a b : List α) : List α :=
  a.filter (fun x => decide (x ∈ b))

/-- `nullthrows` / `invariant`: absent values abort planning. -/
def nt (msg : String) : Option α → Except String α
  | some a => .ok a
  | none => .error msg

/-! ## Graph primitives

Modelled from the spec (§4.1): `Graph` and `ContentGraph` live in
`@parcel/core`, part of this repository but not under `src/`.  Node ids are
consecutive integers stable within a run; node and edge lists keep insertion
order; adding a present edge is a no-op; removing a node removes its
incident edges; removing an absent id is a no-op (the source only removes
ids it holds). -/

structure BGraph (ν : Type) where
  nextId : Nat
  nodes : List (Nat × ν)
  edges : List (Nat × Nat)
deriving DecidableEq, Repr

def BGraph.empty : BGraph ν := ⟨0, [], []⟩

def BGraph.addNode (g : BGraph ν) (v : ν) : Nat × BGraph ν :=
  (g.nextId, ⟨g.nextId + 1, g.nodes ++ [(g.nextId, v)], g.edges⟩)

def BGraph.getNode (g : BGraph ν) (id : Nat) : Option ν := alGet g.nodes id

def BGraph.updateNode (g : BGraph ν) (id : Nat) (f : ν → ν) : BGraph ν :=
  { g with nodes := g.nodes.map (fun p => if p.1 = id then (p.1, f p.2) else p) }

def BGraph.addEdge (g : BGraph ν) (u v : Nat) : BGraph ν :=
  { g with edges := if (u, v) ∈ g.edges then g.edges else g.edges ++ [(u, v)] }

def BGraph.removeEdge (g : BGraph ν) (u v : Nat) : BGraph ν :=
  { g with edges := g.edges.erase (u, v) }

def BGraph.removeNode (g : BGraph ν) (id : Nat) : BGraph ν :=
  { g with nodes := g.nodes.filter (fun p => decide (p.1 ≠ id)),
           edges := g.edges.filter (fun e => decide (e.1 ≠ id ∧ e.2 ≠ id)) }

def BGraph.connectedFrom (g : BGraph ν) (id : Nat) : List Nat :=
  (g.edges.filter (fun e => decide (e.1 = id))).map (·.2)

def BGraph.connectedTo (g : BGraph ν) (id : Nat) : List Nat :=
  (g.edges.filter (fun e => decide (e.2 = id))).map (·.1)

/-- Content-addressed graph (spec §4.1): a graph plus a content-key index. -/
structure CGraph (ν : Type) where
  nextId : Nat
  nodes : List (Nat × ν)
  keys : List (String × Nat)
  edges : List (Nat × Nat)
deriving DecidableEq, Repr

def CGraph.empty : CGraph ν := ⟨0, [], [], []⟩

def CGraph.addNode (g : CGraph ν) (v : ν) : Nat × CGraph ν :=
  (g.nextId, { g with nextId := g.nextId + 1, nodes := g.nodes ++ [(g.nextId, v)] })

def CGraph.getNode (g : CGraph ν) (id : Nat) : Option ν := alGet g.nodes id

def CGraph.keyId (g : CGraph ν) (k : String) : Option Nat := alGet g.keys k

def CGraph.hasContentKey (g : CGraph ν) (k : String) : Bool :=
  (g.keyId k).isSome

/-- `addNodeByContentKey`: add a fresh node registered under `k`. -/
def CGraph.addNodeByContentKey (g : CGraph ν) (k : String) (v : ν) :
    Nat × CGraph ν :=
  (g.nextId, { g with nextId := g.nextId + 1,
                      nodes := g.nodes ++ [(g.nextId, v)],
                      keys := g.keys ++ [(k, g.nextId)] })

/-- `addNodeByContentKeyIfNeeded`: idempotent on the content key. -/
def CGraph.addNodeByContentKeyIfNeeded (g : CGraph ν) (k : String) (v : ν) :
    Nat × CGraph ν :=
  match g.keyId k with
  | some id => (id, g)
  | none => g.addNodeByContentKey k v

def CGraph.addEdge (g : CGraph ν) (u v : Nat) : CGraph ν :=
  { g with edges := if (u, v) ∈ g.edges then g.edges else g.edges ++ [(u, v)] }

def CGraph.connectedFrom (g : CGraph ν) (id : Nat) : List Nat :=
  (g.edges.filter (fun e => decide (e.1 = id))).map (·.2)

def CGraph.connectedTo (g : CGraph ν) (id : Nat) : List Nat :=
  (g.edges.filter (fun e => decide (e.2 = id))).map (·.1)

/-- One step of Kahn's algorithm: the first remaining node (insertion order)
with no incoming edge from another remaining node. -/
def topoPick (edges : List (Nat × Nat)) (remaining : List Nat) : Option Nat :=
  remaining.find? (fun v =>
    remaining.all (fun u => decide (u = v ∨ (u, v) ∉ edges)))

def topoGo (edges : List (Nat × Nat)) : Nat → List Nat → List Nat
  | 0, remaining => remaining
  | fuel + 1, remaining =>
    match topoPick edges remaining with
    | none => remaining
    | some v => v :: topoGo edges fuel (remaining.erase v)

/-- Modelled from the spec (§4.1): `topoSort()` yields ids with every edge
`u → v` placing `u` before `v`; back-edges are ignored and ties are broken
by insertion order. -/
def CGraph.topoSort (g : CGraph ν) : List Nat :=
  topoGo g.edges g.nodes.length (g.nodes.map (·.1))

/-! ## dependencyBundleGraph -/

/-- Node payload of `dependencyBundleGraph`: a tagged variant of dependency
and bundle nodes (spec §9). -/
inductive DBNode where
  | dep (d : Dep)
  | bundle (b : Bundle)
deriving DecidableEq, Repr

/-- `dependencyBundleGraph`: content-addressed, with `DependencyPriority`
edge labels.  Bundle payloads snapshot the bundle value at insertion time
(the reference implementation stores the live object; the planner itself
never reads these payloads back). -/
structure DBGraph where
  nextId : Nat
  nodes : List (Nat × DBNode)
  keys : List (String × Nat)
  edges : List (Nat × Nat × Priority)
deriving DecidableEq, Repr

def DBGraph.empty : DBGraph := ⟨0, [], [], []⟩

def DBGraph.keyId (g : DBGraph) (k : String) : Option Nat := alGet g.keys k

def DBGraph.hasContentKey (g : DBGraph) (k : String) : Bool :=
  (g.keyId k).isSome

def DBGraph.addNodeByContentKeyIfNeeded (g : DBGraph) (k : String)
    (v : DBNode) : Nat × DBGraph :=
  match g.keyId k with
  | some id => (id, g)
  | none =>
    (g.nextId, { g with nextId := g.nextId + 1,
                        nodes := g.nodes ++ [(g.nextId, v)],
                        keys := g.keys ++ [(k, g.nextId)] })

def DBGraph.addEdge (g : DBGraph) (u v : Nat) (p : Priority) : DBGraph :=
  { g with edges :=
      if (u, v, p) ∈ g.edges then g.edges else g.edges ++ [(u, v, p)] }

/-- Both `dependencyBundleGraph.addEdge(addNodeByContentKeyIfNeeded(dep...),
addNodeByContentKeyIfNeeded(String(bundleId)...), priority)` call patterns
in the source. -/
def DBGraph.linkDepBundle (g : DBGraph) (d : Dep) (bundleId : Nat)
    (b : Bundle) (p : Priority) : DBGraph :=
  let (depNode, g) := g.addNodeByContentKeyIfNeeded d.id (.dep d)
  let (bundleNode, g) := g.addNodeByContentKeyIfNeeded (toString bundleId) (.bundle b)
  g.addEdge depNode bundleNode p

/-! ## createBundle (DefaultBundler.js lines 925-968) -/

/-- `createBundle` without an `asset` option (the shared-bundle call site):
the returned record carries no `bundleBehavior` field at all. -/
def createBundleNoAsset (target type env : String) : Bundle :=
  { assets := []
    internalizedAssetIds := []
    size := 0
    sourceBundles := []
    target := target
    type := type
    env := env
    needsStableName := false
    bundleBehavior := none }

/-- `createBundle` with an `asset` option.  NOTE (faithful to the source):
the returned record uses `asset.bundleBehavior`; the `bundleBehavior`
option argument passed by callers is accepted but never read. -/
def createBundleWithAsset (asset : Asset) (target : String)
    (needsStableName : Bool) (bundleBehaviorArg : Option BBehavior) : Bundle :=
  { assets := [asset]
    internalizedAssetIds := []
    size := asset.statsSize
    sourceBundles := []
    target := target
    type := asset.type
    env := asset.envContext
    needsStableName := needsStableName
    bundleBehavior := asset.bundleBehavior }

/-- The async-split `needsStableName` computation (lines 372-376):
`false` when either side is inline, else `isEntry || needsStableName`. -/
def asyncSplitNeedsStableName (dependency : Dep) (childAsset : Asset) : Bool :=
  if dependency.bundleBehavior = some .inline ∨
      childAsset.bundleBehavior = some .inline then false
  else dependency.isEntry || dependency.needsStableName

/-- The async-split bundle construction (lines 369-379): `createBundle`
called with `bundleBehavior: dependency.bundleBehavior ?? childAsset.bundleBehavior`
(which `createBundle` then ignores in favour of `asset.bundleBehavior`). -/
def asyncSplitBundle (dependency : Dep) (childAsset : Asset)
    (target : String) : Bundle :=
  createBundleWithAsset childAsset target
    (asyncSplitNeedsStableName dependency childAsset)
    (dependency.bundleBehavior.orElse (fun _ => childAsset.bundleBehavior))

/-! ## Dependency resolution invariant (lines 352-358 and 498-505) -/

/-- `getDependencyAssets` handling: zero resolved assets skips the
dependency (`return node`), exactly one proceeds, anything else trips
`invariant(assets.length === 1)` and aborts planning. -/
def resolveSingle (assets : List Asset) : Except String (Option Asset) :=
  match assets with
  | [] => .ok none
  | [a] => .ok (some a)
  | _ => .error "InvariantViolation: assets.length === 1"

/-! ## The input asset graph -/

/-- The planner's read-only view of the upstream asset graph: the entry
dependencies hanging off the root, each asset's ordered outgoing
dependencies, and each dependency's resolved assets
(`getDependencyAssets`). -/
structure InputGraph where
  rootDeps : List Dep
  assetDeps : List (String × List Dep)
  depAssets : List (String × List Asset)
deriving DecidableEq, Repr

def InputGraph.depsOf (g : InputGraph) (a : Asset) : List Dep :=
  (alGet g.assetDeps a.id).getD []

def InputGraph.assetsOf (g : InputGraph) (d : Dep) : List Asset :=
  (alGet g.depAssets d.id).getD []

/-- A fuel bound that dominates the visit-nesting depth of any traversal:
each level of traversal nesting consumes one fuel, and the nesting depth is
bounded by the total number of nodes plus the total length of the adjacency
lists walked along one descent. -/
def InputGraph.fuel (g : InputGraph) : Nat :=
  2 * (g.assetDeps.length + g.depAssets.length + g.rootDeps.length +
    (g.assetDeps.map (fun p => p.2.length)).sum +
    (g.depAssets.map (fun p => p.2.length)).sum) + 8

/-! ## Planner state -/

/-- Node payload of `asyncBundleRootGraph`: a bundle root or the synthetic
`'root'`. -/
inductive ARNode where
  | root
  | asset (a : Asset)
deriving DecidableEq, Repr

/-- All mutable state of one `createIdealGraph` run, across the phases.
`visited` is the visited set of the phase-1 traversal; `stack` is the
ancestor frame stack (`Array<[BundleRoot, NodeId]>`, index 0 first). -/
structure PlanState where
  entries : List (Asset × Dep)
  bundleRoots : List (Asset × (Nat × Nat))
  bundles : List (String × Nat)
  dbg : DBGraph
  assetReference : List (Asset × List (Dep × Bundle))
  reachableBundles : List (Asset × List Asset)
  bundleGraph : BGraph Bundle
  stack : List (Asset × Nat)
  asyncGraph : CGraph ARNode
  bundleGroupBundleIds : List Nat
  assetsList : List Asset
  visited : List String
  reachableRoots : CGraph Asset
  reachableAsyncRoots : List (Nat × List Asset)
  ancestorAssets : List (Asset × List Asset)
  assetRefsInBundleGroup : List (Asset × List (Asset × List (Asset × Nat)))
deriving DecidableEq, Repr

/-- `asyncBundleRootGraph.addNode('root')` happens first, so the synthetic
root always has node id 0. -/
def asyncRootId : Nat := 0

def initPlanState : PlanState :=
  { entries := []
    bundleRoots := []
    bundles := []
    dbg := DBGraph.empty
    assetReference := []
    reachableBundles := []
    bundleGraph := BGraph.empty
    stack := []
    asyncGraph := (CGraph.empty.addNode ARNode.root).2
    bundleGroupBundleIds := []
    assetsList := []
    visited := []
    reachableRoots := CGraph.empty
    reachableAsyncRoots := []
    ancestorAssets := []
    assetRefsInBundleGroup := [] }

/-! ## Phase 1 — entry discovery and bundle creation (lines 281-478) -/

/-- The entry-collection traversal's per-dependency asset visits: each
unvisited asset node must arrive through an entry dependency
(`invariant(context … isEntry)`), is recorded in `entries`, and its
children are skipped. -/
def entryAssetsGo (d : Dep) :
    List Asset → List String → List (Asset × Dep) →
    Except String (List String × List (Asset × Dep))
  | [], seen, acc => .ok (seen, acc)
  | a :: rest, seen, acc =>
    if a.id ∈ seen then entryAssetsGo d rest seen acc
    else if d.isEntry then
      entryAssetsGo d rest (seen ++ [a.id]) (acc ++ [(a, d)])
    else .error "InvariantViolation: context.value.isEntry"

def collectEntriesGo (g : InputGraph) :
    List Dep → List String → List (Asset × Dep) →
    Except String (List (Asset × Dep))
  | [], _, acc => .ok acc
  | d :: rest, seen, acc => do
    let (seen, acc) ← entryAssetsGo d (g.assetsOf d) seen acc
    collectEntriesGo g rest seen acc

/-- First traversal (lines 285-295): collect `(entry asset, entry
dependency)` pairs in discovery order, skipping entry subtrees. -/
def collectEntries (g : InputGraph) : Except String (List (Asset × Dep)) :=
  collectEntriesGo g g.rootDeps [] []

/-- Entry-bundle creation loop (lines 300-326). -/
def createEntryBundles :
    List (Asset × Dep) → PlanState → Except String PlanState
  | [], st => .ok st
  | (asset, dependency) :: rest, st => do
    let target ← nt "nullthrows: dependency.target" dependency.target
    let bundle := createBundleWithAsset asset target dependency.isEntry none
    let (nodeId, bg) := st.bundleGraph.addNode bundle
    let (entryNodeId, ag) :=
      st.asyncGraph.addNodeByContentKey asset.id (.asset asset)
    let st :=
      { st with
        bundleGraph := bg
        bundles := alSet st.bundles asset.id nodeId
        bundleRoots := alSet st.bundleRoots asset (nodeId, nodeId)
        asyncGraph := ag.addEdge asyncRootId entryNodeId
        dbg := st.dbg.linkDepBundle dependency nodeId bundle dependency.priority
        bundleGroupBundleIds := st.bundleGroupBundleIds ++ [nodeId] }
    createEntryBundles rest st

/-- The async-split stack walk (lines 405-430): walk the frame stack from
the top until an incompatible frame, marking `reachableBundles`, and for
the top frame only add the `asyncBundleRootGraph` edge parent → child. -/
def asyncStackWalk (childAsset : Asset) :
    List (Asset × Nat) → Bool → PlanState → PlanState
  | [], _, st => st
  | (stackAsset, _) :: rest, isTop, st =>
    if stackAsset.type ≠ childAsset.type ∨
        stackAsset.envContext ≠ childAsset.envContext ∨
        stackAsset.envIsolated then st
    else
      let rb := dmGet st.reachableBundles stackAsset []
      let st :=
        { st with reachableBundles := alSet rb.2 stackAsset (slAdd rb.1 childAsset) }
      let st :=
        if isTop then
          let (childNodeId, ag) :=
            st.asyncGraph.addNodeByContentKeyIfNeeded childAsset.id (.asset childAsset)
          let (parentNodeId, ag) :=
            ag.addNodeByContentKeyIfNeeded stackAsset.id (.asset stackAsset)
          { st with asyncGraph := ag.addEdge parentNodeId childNodeId }
        else st
      asyncStackWalk childAsset rest false st

/-- The split logic run at each dependency edge of the phase-1 traversal
(lines 360-469): async split, type-change / inline split, or no split. -/
def processDepEdge (parentAsset : Asset) (dependency : Dep)
    (childAsset : Asset) (st : PlanState) : Except String PlanState := do
  if dependency.priority = .lazy ∨ childAsset.bundleBehavior = some .isolated then
    let (bundleId, bundle, st) ←
      match alGet st.bundles childAsset.id with
      | none => do
        let bot ← nt "stack[0] undefined" st.stack.head?
        let botBundle ← nt "nullthrows: bundleGraph.getNode(stack[0][1])"
          (st.bundleGraph.getNode bot.2)
        let bundle := asyncSplitBundle dependency childAsset botBundle.target
        let (bundleId, bg) := st.bundleGraph.addNode bundle
        pure (bundleId, bundle,
          { st with
            bundleGraph := bg
            bundles := alSet st.bundles childAsset.id bundleId
            bundleRoots := alSet st.bundleRoots childAsset (bundleId, bundleId)
            bundleGroupBundleIds := st.bundleGroupBundleIds ++ [bundleId] })
      | some bundleId => do
        let bundle ← nt "nullthrows: bundleGraph.getNode(bundleId)"
          (st.bundleGraph.getNode bundleId)
        pure (bundleId, bundle, st)
    let st :=
      { st with dbg := st.dbg.linkDepBundle dependency bundleId bundle dependency.priority }
    pure (asyncStackWalk childAsset st.stack.reverse true st)
  else if parentAsset.type ≠ childAsset.type ∨
      childAsset.bundleBehavior = some .inline then
    let top ← nt "nullthrows: stack[stack.length-1]" st.stack.getLast?
    let bundleGroupNodeId := top.2
    let bundleGroup ← nt "nullthrows: bundleGraph.getNode(bundleGroupNodeId)"
      (st.bundleGraph.getNode bundleGroupNodeId)
    let bundle := createBundleWithAsset childAsset bundleGroup.target
      (dependency.bundleBehavior = some .inline) none
    let (bundleId, bg) := st.bundleGraph.addNode bundle
    let st :=
      { st with
        bundleGraph := bg
        bundles := alSet st.bundles childAsset.id bundleId
        bundleRoots := alSet st.bundleRoots childAsset (bundleId, bundleGroupNodeId) }
    let st := { st with dbg := st.dbg.linkDepBundle dependency bundleId bundle .parallel }
    let st := { st with bundleGraph := st.bundleGraph.addEdge bundleGroupNodeId bundleId }
    let ar := dmGet st.assetReference childAsset []
    pure { st with assetReference := alSet ar.2 childAsset (ar.1 ++ [(dependency, bundle)]) }
  else
    pure st

/-- Work items of the phase-1 traversal (asset node, a dependency list,
or a single dependency node). -/
inductive TravTask where
  | asset (a : Asset)
  | deps (parent : Asset) (ds : List Dep)
  | dep (parent : Asset) (d : Dep)
deriving DecidableEq, Repr

/-- Phase-1 traversal (lines 331-478), fuelled and structurally recursive.
An asset node records discovery order, pushes a frame when the asset is a
bundle root, walks its outgoing dependencies and pops the frame on exit.
A dependency node resolves its assets (zero assets skip it, two or more
abort), applies the split logic, then descends into the child asset if it
is unvisited. -/
def trav (g : InputGraph) : Nat → TravTask → PlanState → Except String PlanState
  | 0, _, _ => .error "traversal fuel exhausted"
  | fuel + 1, .asset a, st => do
    let st :=
      { st with assetsList := st.assetsList ++ [a], visited := st.visited ++ [a.id] }
    let st :=
      match alGet st.bundleRoots a with
      | some t => { st with stack := st.stack ++ [(a, t.2)] }
      | none => st
    let st ← trav g fuel (.deps a (g.depsOf a)) st
    match st.stack.getLast? with
    | some fr =>
      if fr.1 = a then pure { st with stack := st.stack.dropLast } else pure st
    | none => pure st
  | _ + 1, .deps _ [], st => pure st
  | fuel + 1, .deps parent (d :: rest), st => do
    let st ← trav g fuel (.dep parent d) st
    trav g fuel (.deps parent rest) st
  | fuel + 1, .dep parent d, st => do
    match ← resolveSingle (g.assetsOf d) with
    | none => pure st
    | some childAsset => do
      let st ← processDepEdge parent d childAsset st
      if childAsset.id ∈ st.visited then pure st
      else trav g fuel (.asset childAsset) st

def travAsset (g : InputGraph) (fuel : Nat) (a : Asset) (st : PlanState) :
    Except String PlanState :=
  trav g fuel (.asset a) st

def travRootAssets (g : InputGraph) :
    List Asset → PlanState → Except String PlanState
  | [], st => .ok st
  | a :: rest, st => do
    let st ← if a.id ∈ st.visited then pure st else travAsset g g.fuel a st
    travRootAssets g rest st

/-- The second traversal's handling of the root's entry dependencies:
dependency nodes with `context == null` just descend. -/
def travRoot (g : InputGraph) : List Dep → PlanState → Except String PlanState
  | [], st => .ok st
  | d :: rest, st => do
    let st ← travRootAssets g (g.assetsOf d) st
    travRoot g rest st

/-- Phase 1: entry collection, entry bundles, and the split traversal. -/
def phase1 (g : InputGraph) : Except String PlanState := do
  let entries ← collectEntries g
  let st ← createEntryBundles entries { initPlanState with entries := entries }
  travRoot g g.rootDeps st

/-! ## Phase 2 — synchronous reachability (lines 480-523) -/

/-- Work items of the phase-2 traversal. -/
inductive ReachTask where
  | asset (a : Asset)
  | deps (ds : List Dep)
  | assets (l : List Asset)
deriving DecidableEq, Repr

/-- Phase-2 traversal from one bundle root (lines 488-523), fuelled and
structurally recursive.  Every asset below the root (excluding the root
itself) gets an edge `root → asset` in `reachableRoots`.  Dependencies
already recorded in `dependencyBundleGraph` are split points — lazy ones
register the traversal root in `reachableAsyncRoots` — and their children
are skipped; other dependencies are descended. -/
def reach (g : InputGraph) (root : Asset) (rootNodeId : Nat) :
    Nat → ReachTask → List String → PlanState →
    Except String (List String × PlanState)
  | 0, _, _, _ => .error "traversal fuel exhausted"
  | fuel + 1, .asset a, vis, st => do
    let vis := vis ++ [a.id]
    let st :=
      if a = root then st
      else
        let (nodeId, rr) := st.reachableRoots.addNodeByContentKeyIfNeeded a.id a
        { st with reachableRoots := rr.addEdge rootNodeId nodeId }
    reach g root rootNodeId fuel (.deps (g.depsOf a)) vis st
  | _ + 1, .deps [], vis, st => pure (vis, st)
  | fuel + 1, .deps (d :: rest), vis, st => do
    let (vis, st) ←
      if st.dbg.hasContentKey d.id then
        if d.priority = .lazy then
          match ← resolveSingle (g.assetsOf d) with
          | none => pure (vis, st)
          | some bundleRoot => do
            if (alGet st.bundleRoots bundleRoot).isSome then
              let bid ← nt "nullthrows: bundles.get(bundleRoot.id)"
                (alGet st.bundles bundleRoot.id)
              let rr := dmGet st.reachableAsyncRoots bid []
              pure (vis,
                { st with reachableAsyncRoots := alSet rr.2 bid (slAdd rr.1 root) })
            else .error "InvariantViolation: bundleRoots.has(bundleRoot)"
        else pure (vis, st)
      else
        reach g root rootNodeId fuel (.assets (g.assetsOf d)) vis st
    reach g root rootNodeId fuel (.deps rest) vis st
  | _ + 1, .assets [], vis, st => pure (vis, st)
  | fuel + 1, .assets (a :: rest), vis, st => do
    let (vis, st) ←
      if a.id ∈ vis then pure (vis, st)
      else reach g root rootNodeId fuel (.asset a) vis st
    reach g root rootNodeId fuel (.assets rest) vis st

def reachAsset (g : InputGraph) (root : Asset) (rootNodeId : Nat)
    (fuel : Nat) (a : Asset) (vis : List String) (st : PlanState) :
    Except String (List String × PlanState) :=
  reach g root rootNodeId fuel (.asset a) vis st

def phase2Go (g : InputGraph) :
    List (Asset × (Nat × Nat)) → PlanState → Except String PlanState
  | [], st => .ok st
  | (root, _) :: rest, st => do
    let (rootNodeId, rr) := st.reachableRoots.addNodeByContentKeyIfNeeded root.id root
    let st := { st with reachableRoots := rr }
    let (_, st) ← reachAsset g root rootNodeId g.fuel root [] st
    phase2Go g rest st

/-- Phase 2: one bounded traversal per bundle root, in `bundleRoots`
insertion order, with a fresh visited set each time. -/
def phase2 (g : InputGraph) (st : PlanState) : Except String PlanState :=
  phase2Go g st.bundleRoots st

/-! ## Phase 3 — ancestor availability (lines 525-683) -/

/-- `nullthrows`-mapped node lookup over a list of ids. -/
def mapNt (msg : String) (f : Nat → Option ν) : List Nat → Except String (List ν)
  | [] => .ok []
  | i :: rest => do
    let v ← nt msg (f i)
    let vs ← mapNt msg f rest
    pure (v :: vs)

/-- The `for (let asset of bundleInGroup.assets) if (bundleRoots.has(asset))
bundleRootInGroup = asset` scan: the last root asset wins, and the previous
value persists when none is found. -/
def groupScanRoot (bundleRoots : List (Asset × (Nat × Nat)))
    (assets : List Asset) (init : Option Asset) : Option Asset :=
  assets.foldl (fun acc a => if (alGet bundleRoots a).isSome then some a else acc) init

/-- The per-asset body of the first bundle-group loop (lines 602-620):
reference counting of assets available from the group, skipped for
isolated/inline bundles. -/
def groupAssetsGo (bundleInGroup : Bundle) (gr : Asset) :
    List Asset → List Asset → List (Asset × Nat) →
    List (Asset × List (Asset × Nat)) →
    List Asset × List (Asset × Nat) × List (Asset × List (Asset × Nat))
  | [], avail, aux, assetRefs => (avail, aux, assetRefs)
  | asset :: rest, avail, aux, assetRefs =>
    if bundleInGroup.bundleBehavior ≠ some .isolated ∧
        bundleInGroup.bundleBehavior ≠ some .inline then
      let (avail, aux) :=
        if asset ∈ avail then (avail, alSet aux asset ((alGet aux asset).getD 0 + 1))
        else (avail ++ [asset], alSet aux asset 1)
      let countMap := alSet ((alGet assetRefs gr).getD []) asset ((alGet aux asset).getD 0)
      groupAssetsGo bundleInGroup gr rest avail aux (alSet assetRefs gr countMap)
    else groupAssetsGo bundleInGroup gr rest avail aux assetRefs

/-- First bundle-group loop (lines 579-621): collect the assets available
from the bundle group and their per-group reference counts. -/
def groupLoop1 (st : PlanState) :
    List Nat → Option Asset → List Asset → List (Asset × Nat) →
    List (Asset × List (Asset × Nat)) →
    Except String
      (Option Asset × List Asset × List (Asset × List (Asset × Nat)))
  | [], br, avail, _, assetRefs => .ok (br, avail, assetRefs)
  | bid :: rest, br, avail, aux, assetRefs => do
    let bundleInGroup ← nt "TypeError: bundleInGroup.assets"
      (st.bundleGraph.getNode bid)
    let br := groupScanRoot st.bundleRoots bundleInGroup.assets br
    let gr ← nt "InvariantViolation: bundleRootInGroup" br
    let rrId ← nt "nullthrows: reachableRoots.getNodeIdByContentKey"
      (st.reachableRoots.keyId gr.id)
    let fromRoot ← mapNt "nullthrows: reachableRoots.getNode"
      st.reachableRoots.getNode (st.reachableRoots.connectedFrom rrId)
    let (avail, aux, assetRefs) :=
      groupAssetsGo bundleInGroup gr (fromRoot ++ bundleInGroup.assets)
        avail aux assetRefs
    groupLoop1 st rest (some gr) avail aux assetRefs

/-- Second bundle-group loop (lines 627-663): seed or merge each groupling
root's `ancestorAssets` with the group's availability set.  NOTE (faithful
to the source): the multi-parent branch calls `setIntersection`, an
identifier that is never imported, so executing it throws a
`ReferenceError`. -/
def groupLoop2 (st : PlanState) (avail : List Asset) :
    List Nat → Option Asset → List (Asset × List Asset) →
    Except String (Option Asset × List (Asset × List Asset))
  | [], br, anc => .ok (br, anc)
  | bid :: rest, br, anc => do
    let bundleInGroup ← nt "InvariantViolation: bundleInGroup != null"
      (st.bundleGraph.getNode bid)
    let br := groupScanRoot st.bundleRoots bundleInGroup.assets br
    let gr ← nt "InvariantViolation: bundleRootInGroup" br
    match alGet anc gr with
    | none => groupLoop2 st avail rest (some gr) (alSet anc gr avail)
    | some availableAssets =>
      if (st.bundleGraph.connectedTo bid).length > 1 then
        .error "ReferenceError: setIntersection is not defined"
      else
        groupLoop2 st avail rest (some gr)
          (alSet anc gr (slUnion avail availableAssets))

/-- The async-child update loop of phase 3 (lines 670-682): a child with no
`ancestorAssets` entry is seeded with `combined`; a child with an existing
entry is always intersected with `combined` in place. -/
def propagateGo (asyncGraph : CGraph ARNode) (combined : List Asset) :
    List Nat → List (Asset × List Asset) →
    Except String (List (Asset × List Asset))
  | [], anc => .ok anc
  | childId :: rest, anc => do
    let childNode ← nt "InvariantViolation: child != null"
      (asyncGraph.getNode childId)
    match childNode with
    | .root => .error "InvariantViolation: child !== root"
    | .asset child =>
      match alGet anc child with
      | none => propagateGo asyncGraph combined rest (alSet anc child combined)
      | some availableAssets =>
        propagateGo asyncGraph combined rest
          (alSet anc child (slIntersect availableAssets combined))

/-- Lines 670-682 packaged over the children of the current root. -/
def propagateToChildren (asyncGraph : CGraph ARNode) (nodeId : Nat)
    (combined : List Asset) (anc : List (Asset × List Asset)) :
    Except String (List (Asset × List Asset)) :=
  propagateGo asyncGraph combined (asyncGraph.connectedFrom nodeId) anc

/-- One iteration of the phase-3 topological loop (lines 557-683). -/
def p3Node (st : PlanState) (nodeId : Nat) : Except String PlanState := do
  let nd ← nt "InvariantViolation: bundleRoot != null"
    (st.asyncGraph.getNode nodeId)
  match nd with
  | .root => pure st
  | .asset bundleRoot => do
    let rrId ← nt "nullthrows: reachableRoots.getNodeIdByContentKey"
      (st.reachableRoots.keyId bundleRoot.id)
    let syncAssetsLoaded ← mapNt "nullthrows: reachableRoots.getNode"
      st.reachableRoots.getNode (st.reachableRoots.connectedFrom rrId)
    let ancestors := alGet st.ancestorAssets bundleRoot
    let grp ← nt "nullthrows: bundleRoots.get(bundleRoot)"
      (alGet st.bundleRoots bundleRoot)
    let bundleGroupId := grp.2
    let groupIds := st.bundleGraph.connectedFrom bundleGroupId
    let (br1, avail, assetRefs) ←
      groupLoop1 st groupIds none (syncAssetsLoaded.foldl slAdd []) []
        ((alGet st.assetRefsInBundleGroup bundleRoot).getD [])
    let arMap := alSet st.assetRefsInBundleGroup bundleRoot assetRefs
    let st := { st with assetRefsInBundleGroup := arMap }
    let (_, anc1) ← groupLoop2 st avail groupIds br1 st.ancestorAssets
    let st := { st with ancestorAssets := anc1 }
    let combined :=
      match ancestors with
      | some anc0 => slUnion anc0 syncAssetsLoaded
      | none => syncAssetsLoaded.foldl slAdd []
    let anc2 ← propagateToChildren st.asyncGraph nodeId combined st.ancestorAssets
    pure { st with ancestorAssets := anc2 }

def p3Go : List Nat → PlanState → Except String PlanState
  | [], st => .ok st
  | nodeId :: rest, st => do
    let st ← p3Node st nodeId
    p3Go rest st

/-- Phase 3: process `asyncBundleRootGraph` in topological order. -/
def phase3 (st : PlanState) : Except String PlanState :=
  p3Go st.asyncGraph.topoSort st

/-! ## Phase 4 — placement (lines 685-845) -/

/-- `getReachableBundleRoots` (lines 1020-1024). -/
def getReachableBundleRoots (asset : Asset) (graph : CGraph Asset) :
    Except String (List Asset) := do
  let nid ← nt "nullthrows: getNodeIdByContentKey" (graph.keyId asset.id)
  mapNt "nullthrows: graph.getNode" graph.getNode (graph.connectedTo nid)

/-- The shared-bundle content key (line 809):
`reachable.map(a => a.id).join(',')` — the reacher ids are concatenated in
the order of the `reachable` array, with no sorting. -/
def sharedBundleKey (reachable : List Asset) : String :=
  String.intercalate "," (reachable.map (·.id))

/-- The triply-nested per-bundle-group reference-count lookup used by the
placement filter (lines 727-731); absent levels read as the default 0. -/
def refCount (m : List (Asset × List (Asset × List (Asset × Nat))))
    (groot b asset : Asset) : Nat :=
  (alGet ((alGet ((alGet m groot).getD []) b).getD []) asset).getD 0

/-- The placement filter predicate (lines 709-746): drop `b` when the
asset is already among `b`'s ancestor assets; otherwise, when `b` is a
bundle root, keep it iff its per-group reference count for the asset is at
most 1. -/
def placementKeep (st : PlanState) (asset b : Asset) : Except String Bool := do
  let one : Bool :=
    match alGet st.ancestorAssets b with
    | some s => decide (asset ∉ s)
    | none => true
  let groot ←
    match alGet st.bundleRoots b with
    | some t => do
      let gb ← nt "TypeError: assetsBundleGroupRoot.assets"
        (st.bundleGraph.getNode t.2)
      let a0 ← nt "nullthrows: [...assetsBundleGroupRoot.assets][0]" gb.assets.head?
      pure (some a0)
    | none => pure none
  if one = false then pure one
  else
    match groot with
    | some gr => pure (decide ¬ (1 < refCount st.assetRefsInBundleGroup gr b asset))
    | none => pure one

def filterME (p : α → Except String Bool) : List α → Except String (List α)
  | [] => .ok []
  | a :: rest => do
    let keep ← p a
    let rest ← filterME p rest
    pure (if keep then a :: rest else rest)

/-- Root placement, edge loop (lines 767-774): link every other reachable
root's bundle group to this root's bundle. -/
def rootEdgesGo (asset : Asset) (rbId : Nat) :
    List Asset → PlanState → Except String PlanState
  | [], st => .ok st
  | ra :: rest, st =>
    if ra ≠ asset then do
      let t ← nt "nullthrows: bundleRoots.get(reachableAsset)"
        (alGet st.bundleRoots ra)
      rootEdgesGo asset rbId rest
        { st with bundleGraph := st.bundleGraph.addEdge t.2 rbId }
    else rootEdgesGo asset rbId rest st

/-- Async internalization loop (lines 791-804). -/
def internalizeGo (asset : Asset) :
    List Asset → PlanState → Except String PlanState
  | [], st => .ok st
  | bundleRoot :: rest, st =>
    if bundleRoot ≠ asset then do
      let bid ← nt "nullthrows: bundles.get(bundleRoot.id)"
        (alGet st.bundles bundleRoot.id)
      let _ ← nt "nullthrows: bundleGraph.getNode" (st.bundleGraph.getNode bid)
      let bg := st.bundleGraph.updateNode bid (fun b =>
        { b with internalizedAssetIds := b.internalizedAssetIds ++ [asset.id] })
      internalizeGo asset rest { st with bundleGraph := bg }
    else internalizeGo asset rest st

def sourcesOf (bundles : List (String × Nat)) :
    List Asset → Except String (List Nat)
  | [] => .ok []
  | a :: rest => do
    let i ← nt "nullthrows: bundles.get(a.id)" (alGet bundles a.id)
    let rest ← sourcesOf bundles rest
    pure (i :: rest)

/-- The tail of the shared-bundle placement (lines 830-843): add the asset
and its size to the chosen bundle, link every source bundle, and register
the bundle in `dependencyBundleGraph`. -/
def placeSharedCont (st : PlanState) (asset : Asset) (bundleId : Nat)
    (sourceBundles : List Nat) : Except String PlanState := do
  let bg := st.bundleGraph.updateNode bundleId (fun b =>
    { b with assets := slAdd b.assets asset, size := b.size + asset.statsSize })
  let st := { st with bundleGraph := bg }
  let st := sourceBundles.foldl (fun st sb =>
    if bundleId ≠ sb then { st with bundleGraph := st.bundleGraph.addEdge sb bundleId }
    else st) st
  let cur ← nt "bundle vanished" (st.bundleGraph.getNode bundleId)
  pure { st with dbg := (st.dbg.addNodeByContentKeyIfNeeded (toString bundleId) (.bundle cur)).2 }

/-- Shared-bundle synthesis (lines 805-844): look the content key up in
`bundles`, create a bundle from the first source bundle's target/type/env
when absent, add the asset and its size, and link every source bundle. -/
def placeShared (st : PlanState) (asset : Asset) (reachable : List Asset) :
    Except String PlanState := do
  let sourceBundles ← sourcesOf st.bundles reachable
  let key := sharedBundleKey reachable
  match alGet st.bundles key with
  | none => do
    let fsbId ← nt "sourceBundles[0] undefined" sourceBundles.head?
    let firstSourceBundle ← nt "nullthrows: bundleGraph.getNode(sourceBundles[0])"
      (st.bundleGraph.getNode fsbId)
    let bundle :=
      { createBundleNoAsset firstSourceBundle.target firstSourceBundle.type
          firstSourceBundle.env with sourceBundles := sourceBundles }
    let (bundleId, bg) := st.bundleGraph.addNode bundle
    placeSharedCont
      { st with bundleGraph := bg, bundles := alSet st.bundles key bundleId }
      asset bundleId sourceBundles
  | some bundleId => do
    let _ ← nt "nullthrows: bundleGraph.getNode(bundleId)"
      (st.bundleGraph.getNode bundleId)
    placeSharedCont st asset bundleId sourceBundles

/-- Placement of one asset (lines 689-845). -/
def placeAsset (st : PlanState) (asset : Asset) : Except String PlanState := do
  let reachable0 ← getReachableBundleRoots asset st.reachableRoots
  let reachable ← filterME (placementKeep st asset) reachable0
  match alGet st.bundleRoots asset with
  | some rootBundle => do
    let st :=
      if (alGet st.bundles asset.id).isNone then
        { st with bundles := alSet st.bundles asset.id rootBundle.1 }
      else st
    let st ← rootEdgesGo asset rootBundle.1 reachable st
    let reachableAsync :=
      match alGet st.reachableAsyncRoots rootBundle.1 with
      | some s => s
      | none => []
    let rl ← getReachableBundleRoots asset st.reachableRoots
    let willInternalizeRoots := reachableAsync.filter (fun b =>
      ! rl.all (fun a =>
        ! (decide (a = b) || decide (b ∈ (alGet st.reachableBundles a).getD []))))
    internalizeGo asset willInternalizeRoots st
  | none =>
    if reachable.length > 0 then placeShared st asset reachable else pure st

def p4Go : List Asset → PlanState → Except String PlanState
  | [], st => .ok st
  | a :: rest, st => do
    let st ← placeAsset st a
    p4Go rest st

/-- Phase 4: place every asset, in phase-1 discovery order. -/
def phase4 (st : PlanState) : Except String PlanState :=
  p4Go st.assetsList st

/-! ## Phase 5 — merge and cleanup (lines 847-891), removeBundle (970-982) -/

def rbAddToSources (asset : Asset) :
    List Nat → BGraph Bundle → Except String (BGraph Bundle)
  | [], g => .ok g
  | sid :: rest, g => do
    let _ ← nt "nullthrows: bundleGraph.getNode(sourceBundleId)" (g.getNode sid)
    let g := g.updateNode sid (fun sb =>
      { sb with assets := slAdd sb.assets asset, size := sb.size + asset.statsSize })
    rbAddToSources asset rest g

def rbAssetsGo (sourceBundles : List Nat) :
    List Asset → BGraph Bundle → Except String (BGraph Bundle)
  | [], g => .ok g
  | a :: rest, g => do
    let g ← rbAddToSources a sourceBundles g
    rbAssetsGo sourceBundles rest g

/-- `removeBundle` (lines 970-982): copy every asset of the bundle (with its
size contribution) into every source bundle, then remove the node. -/
def removeBundle (g : BGraph Bundle) (bundleId : Nat) :
    Except String (BGraph Bundle) := do
  let bundle ← nt "nullthrows: bundleGraph.getNode(bundleId)" (g.getNode bundleId)
  let g ← rbAssetsGo bundle.sourceBundles bundle.assets g
  pure (g.removeNode bundleId)

def mergeGo (cfg : BundlerCfg) :
    List (Nat × Bundle) → BGraph Bundle → Except String (BGraph Bundle)
  | [], g => .ok g
  | (id, _) :: rest, g =>
    match g.getNode id with
    | none => mergeGo cfg rest g
    | some b =>
      if b.sourceBundles.length > 0 ∧ b.size < cfg.minBundleSize then
        match removeBundle g id with
        | .ok g => mergeGo cfg rest g
        | .error e => .error e
      else mergeGo cfg rest g

/-- Small-shared merge loop (lines 849-853): every bundle with nonempty
`sourceBundles` and `size < config.minBundleSize` is removed via
`removeBundle`.  Iteration of the live node map is modelled by walking a
snapshot and re-reading each node (entries deleted before their visit are
skipped; the loop only ever deletes the node it is visiting). -/
def mergeLoop (cfg : BundlerCfg) (g : BGraph Bundle) :
    Except String (BGraph Bundle) :=
  mergeGo cfg g.nodes g

/-- The absorb loops of the entry-sibling fold (lines 863-866 and 877-880):
`bundle.assets.add(asset); bundle.size += asset.stats.size` — NOTE the size
is added even when the asset is already a member of the set. -/
def absorbAssets (targetId : Nat) (assets : List Asset)
    (g : BGraph Bundle) : BGraph Bundle :=
  assets.foldl (fun g a => g.updateNode targetId (fun eb =>
    { eb with assets := slAdd eb.assets a, size := eb.size + a.statsSize })) g

/-- The per-sibling body of the entry fold (lines 858-884): absorb same-type
siblings into the entry bundle, unlink them, delete the entry from the
sibling's `reachableAsyncRoots` set (auto-creating the entry), and splice
the entry out of the sibling's `sourceBundles`, collapsing the sibling into
its lone remaining source when one remains. -/
def foldSiblings (entryAsset : Asset) (entryBundleId : Nat) :
    List Nat → BGraph Bundle → List (Nat × List Asset) →
    Except String (BGraph Bundle × List (Nat × List Asset))
  | [], g, raR => .ok (g, raR)
  | siblingId :: rest, g, raR => do
    let sibling ← nt "nullthrows: bundleGraph.getNode(siblingId)" (g.getNode siblingId)
    let entryBundle ← nt "nullthrows: bundleGraph.getNode(entryBundleId)"
      (g.getNode entryBundleId)
    if sibling.type ≠ entryBundle.type then
      foldSiblings entryAsset entryBundleId rest g raR
    else
      let g := absorbAssets entryBundleId sibling.assets g
      let g := g.removeEdge entryBundleId siblingId
      let rr := dmGet raR siblingId []
      let raR := alSet rr.2 siblingId (rr.1.erase entryAsset)
      if sibling.sourceBundles.length > 1 then
        if entryBundleId ∈ sibling.sourceBundles then
          let newSrcs := sibling.sourceBundles.erase entryBundleId
          if newSrcs.length = 1 then do
            let loneId ← nt "sourceBundles.pop()" newSrcs.head?
            let g := g.updateNode siblingId (fun s => { s with sourceBundles := [] })
            let _ ← nt "nullthrows: bundleGraph.getNode(id)" (g.getNode loneId)
            let g := absorbAssets loneId sibling.assets g
            let g := g.removeEdge loneId siblingId
            foldSiblings entryAsset entryBundleId rest g raR
          else
            let g := g.updateNode siblingId (fun s => { s with sourceBundles := newSrcs })
            foldSiblings entryAsset entryBundleId rest g raR
        else .error "InvariantViolation: entryBundleIndex >= 0"
      else foldSiblings entryAsset entryBundleId rest g raR

def foldEntry (bundleRoots : List (Asset × (Nat × Nat))) (entryAsset : Asset)
    (g : BGraph Bundle) (raR : List (Nat × List Asset)) :
    Except String (BGraph Bundle × List (Nat × List Asset)) := do
  let t ← nt "nullthrows: bundleRoots.get(entryAsset)?.[0]" (alGet bundleRoots entryAsset)
  let _ ← nt "nullthrows: bundleGraph.getNode(entryBundleId)" (g.getNode t.1)
  foldSiblings entryAsset t.1 (g.connectedFrom t.1) g raR

/-- Entry-sibling fold loop (lines 855-885), over `entries.keys()`. -/
def foldLoop (bundleRoots : List (Asset × (Nat × Nat))) :
    List Asset → BGraph Bundle → List (Nat × List Asset) →
    Except String (BGraph Bundle × List (Nat × List Asset))
  | [], g, raR => .ok (g, raR)
  | e :: rest, g, raR => do
    let (g, raR) ← foldEntry bundleRoots e g raR
    foldLoop bundleRoots rest g raR

/-- Orphan-drop loop (lines 887-891): remove every bundle whose
`reachableAsyncRoots` entry is an empty set. -/
def orphanGo : List (Nat × List Asset) → BGraph Bundle → BGraph Bundle
  | [], g => g
  | (k, v) :: rest, g => orphanGo rest (if v = [] then g.removeNode k else g)

def orphanLoop (raR : List (Nat × List Asset)) (g : BGraph Bundle) :
    BGraph Bundle :=
  orphanGo raR g

/-- Phase 5: small-shared merge, entry-sibling fold, orphan drop. -/
def phase5 (cfg : BundlerCfg) (st : PlanState) : Except String PlanState := do
  let g ← mergeLoop cfg st.bundleGraph
  let (g, raR) ← foldLoop st.bundleRoots (st.entries.map (·.1)) g st.reachableAsyncRoots
  pure { st with bundleGraph := orphanLoop raR g, reachableAsyncRoots := raR }

/-! ## Phase 6 — plan export (lines 893-903) -/

/-- The emitted `IdealGraph` record. -/
structure IdealGraph where
  bundleGraph : BGraph Bundle
  dependencyBundleGraph : DBGraph
  bundleGroupBundleIds : List Nat
  entryBundles : List Nat
  assetReference : List (Asset × List (Dep × Bundle))
deriving DecidableEq, Repr

def PlanState.toIdealGraph (st : PlanState) : IdealGraph :=
  { bundleGraph := st.bundleGraph
    dependencyBundleGraph := st.dbg
    bundleGroupBundleIds := st.bundleGroupBundleIds
    entryBundles := st.bundleRoots.map (fun p => p.2.1)
    assetReference := st.assetReference }

/-- `createIdealGraph` with its full final state exposed. -/
def createIdealGraphState (g : InputGraph) (cfg : BundlerCfg) :
    Except String PlanState := do
  let st ← phase1 g
  let st ← phase2 g st
  let st ← phase3 st
  let st ← phase4 st
  phase5 cfg st

/-- `createIdealGraph(assetGraph, config)` (lines 255-903). -/
def createIdealGraph (g : InputGraph) (cfg : BundlerCfg) :
    Except String IdealGraph :=
  (createIdealGraphState g cfg).map PlanState.toIdealGraph

/-! ## Concrete scenario inputs

Small input graphs used to evaluate the planner on concrete runs.  All
assets share type `js` and context `browser` unless noted; sizes and
`minBundleSize` follow the spec's scenarios. -/

def cfg20k : BundlerCfg := ⟨1, 20000, 25⟩

def s4E1 : Asset := ⟨"e1", "js", "browser", false, none, 100⟩

def s4E2 : Asset := ⟨"e2", "js", "browser", false, none, 100⟩

def s4S : Asset := ⟨"s", "js", "browser", false, none, 5000⟩

def s4DE1 : Dep := ⟨"de1", .sync, true, none, false, some "t"⟩

def s4DE2 : Dep := ⟨"de2", .sync, true, none, false, some "t"⟩

def s4DS1 : Dep := ⟨"ds1", .sync, false, none, false, none⟩

def s4DS2 : Dep := ⟨"ds2", .sync, false, none, false, none⟩

/-- Scenario S4: entries `e1`, `e2` both synchronously import the small
asset `s` (5000 bytes, `minBundleSize` 20000). -/
def s4Input : InputGraph :=
  { rootDeps := [s4DE1, s4DE2]
    assetDeps := [("e1", [s4DS1]), ("e2", [s4DS2]), ("s", [])]
    depAssets := [("de1", [s4E1]), ("de2", [s4E2]), ("ds1", [s4S]), ("ds2", [s4S])] }

def c3X : Asset := ⟨"x", "js", "browser", false, none, 30000⟩

def c3DX1 : Dep := ⟨"dx1", .sync, false, none, false, none⟩

def c3DX2 : Dep := ⟨"dx2", .sync, false, none, false, none⟩

def c3D21 : Dep := ⟨"d21", .sync, false, none, false, none⟩

/-- Like S3 but entry `e2` additionally imports entry asset `e1`
synchronously; both entries import the large shared asset `x`. -/
def c3Input : InputGraph :=
  { rootDeps := [s4DE1, s4DE2]
    assetDeps := [("e1", [c3DX1]), ("e2", [c3D21, c3DX2]), ("x", [])]
    depAssets := [("de1", [s4E1]), ("de2", [s4E2]), ("dx1", [c3X]),
                  ("dx2", [c3X]), ("d21", [s4E1])] }

def c5Z : Asset := ⟨"z", "js", "browser", false, none, 100⟩

def c5A : Asset := ⟨"a", "js", "browser", false, none, 100⟩

def c5M : Asset := ⟨"m", "js", "browser", false, none, 30000⟩

def c5DZ : Dep := ⟨"dz", .sync, true, none, false, some "t"⟩

def c5DA : Dep := ⟨"da", .sync, true, none, false, some "t"⟩

def c5DM1 : Dep := ⟨"dm1", .sync, false, none, false, none⟩

def c5DM2 : Dep := ⟨"dm2", .sync, false, none, false, none⟩

/-- Entries `z` and `a` (discovered in that order, the reverse of the
sorted order of their ids) both synchronously import `m`. -/
def c5Input : InputGraph :=
  { rootDeps := [c5DZ, c5DA]
    assetDeps := [("z", [c5DM1]), ("a", [c5DM2]), ("m", [])]
    depAssets := [("dz", [c5Z]), ("da", [c5A]), ("dm1", [c5M]), ("dm2", [c5M])] }

/-! ## Observers over a planner run -/

def planOf (r : Except String PlanState) : PlanState :=
  match r with
  | .ok st => st
  | .error _ => initPlanState

def bundleAssets (st : PlanState) (id : Nat) : List Asset :=
  match st.bundleGraph.getNode id with
  | some b => b.assets
  | none => []

def bundleSize (st : PlanState) (id : Nat) : Nat :=
  match st.bundleGraph.getNode id with
  | some b => b.size
  | none => 0

/-- Node ids of the bundles with nonempty `sourceBundles` (the shared
bundles) present in the final graph. -/
def sharedBundleIds (st : PlanState) : List Nat :=
  (st.bundleGraph.nodes.filter (fun p => decide (p.2.sourceBundles ≠ []))).map (·.1)

/-- The number of final bundles whose `assets` set contains `a`. -/
def bundlesContaining (st : PlanState) (a : Asset) : Nat :=
  (st.bundleGraph.nodes.filter (fun p => decide (a ∈ p.2.assets))).length

/-! ## Basic lemmas about the container and graph primitives -/

theorem alGet_alSet_self [DecidableEq κ] (m : List (κ × ν)) (k : κ) (v : ν) :
    alGet (alSet m k v) k = some v := by
  induction m with
  | nil => simp [alSet, alGet]
  | cons p m ih =>
    obtain ⟨k1, v1⟩ := p
    by_cases h : k1 = k
    · simp [alSet, alGet, h]
    · simp [alSet, alGet, h, ih]

theorem alGet_alSet_ne [DecidableEq κ] (m : List (κ × ν)) (k k' : κ) (v : ν)
    (h : k ≠ k') : alGet (alSet m k v) k' = alGet m k' := by
  induction m with
  | nil => simp [alSet, alGet, h]
  | cons p m ih =>
    obtain ⟨k1, v1⟩ := p
    by_cases h1 : k1 = k
    · subst h1
      simp [alSet, alGet, h]
    · simp [alSet, alGet, h1, ih]

theorem mem_slAdd_self [DecidableEq α] (s : List α) (a : α) : a ∈ slAdd s a := by
  unfold slAdd
  by_cases h : a ∈ s <;> simp [h]

theorem mem_slAdd_of_mem [DecidableEq α] {s : List α} {b : α} (a : α)
    (h : b ∈ s) : b ∈ slAdd s a := by
  unfold slAdd
  by_cases ha : a ∈ s <;> simp [ha, h]

theorem slIntersect_idem [DecidableEq α] (a b : List α) :
    slIntersect (slIntersect a b) b = slIntersect a b := by
  unfold slIntersect
  rw [List.filter_filter]
  simp

theorem alGet_mapUpdate [DecidableEq κ] (m : List (κ × ν)) (id j : κ)
    (f : ν → ν) :
    alGet (m.map (fun p => if p.1 = id then (p.1, f p.2) else p)) j =
      if j = id then (alGet m j).map f else alGet m j := by
  induction m with
  | nil => by_cases h : j = id <;> simp [alGet, h]
  | cons p m ih =>
    obtain ⟨k1, v1⟩ := p
    simp only [List.map_cons]
    by_cases h1 : k1 = id
    · rw [if_pos (by simpa using h1)]
      by_cases h2 : j = k1
      · subst h2
        subst h1
        simp [alGet, ih]
      · have h2s : ¬ k1 = j := fun hh => h2 hh.symm
        simp only [alGet, if_neg h2s, ih]
    · rw [if_neg (by simpa using h1)]
      by_cases h2 : j = k1
      · subst h2
        have hne : ¬ j = id := h1
        simp [alGet, hne]
      · have h2s : ¬ k1 = j := fun hh => h2 hh.symm
        simp only [alGet, if_neg h2s, ih]

theorem alGet_filterOut [DecidableEq κ] (m : List (κ × ν)) (id j : κ) :
    alGet (m.filter (fun p => decide (p.1 ≠ id))) j =
      if j = id then none else alGet m j := by
  induction m with
  | nil => by_cases h : j = id <;> simp [alGet, h]
  | cons p m ih =>
    obtain ⟨k1, v1⟩ := p
    by_cases h1 : k1 = id
    · rw [show List.filter (fun p => decide (p.1 ≠ id)) ((k1, v1) :: m) =
            List.filter (fun p => decide (p.1 ≠ id)) m by simp [h1]]
      rw [ih]
      by_cases h2 : j = id
      · simp [h2]
      · have hne : ¬ k1 = j := by
          rw [h1]
          exact fun hh => h2 hh.symm
        simp [alGet, h2, hne]
    · rw [show List.filter (fun p => decide (p.1 ≠ id)) ((k1, v1) :: m) =
            (k1, v1) :: List.filter (fun p => decide (p.1 ≠ id)) m by simp [h1]]
      by_cases h2 : j = k1
      · subst h2
        have hne : ¬ j = id := h1
        simp [alGet, hne]
      · have h2s : ¬ k1 = j := fun hh => h2 hh.symm
        simp only [alGet, if_neg h2s, ih]

theorem getNode_updateNode [DecidableEq ν] (g : BGraph ν) (id j : Nat)
    (f : ν → ν) :
    (g.updateNode id f).getNode j =
      if j = id then (g.getNode j).map f else g.getNode j :=
  alGet_mapUpdate g.nodes id j f

theorem getNode_removeNode [DecidableEq ν] (g : BGraph ν) (id j : Nat) :
    (g.removeNode id).getNode j =
      if j = id then none else g.getNode j :=
  alGet_filterOut g.nodes id j

theorem getNode_addEdge [DecidableEq ν] (g : BGraph ν) (u v : Nat) (j : Nat) :
    (g.addEdge u v).getNode j = g.getNode j := rfl

theorem getNode_removeEdge [DecidableEq ν] (g : BGraph ν) (u v : Nat) (j : Nat) :
    (g.removeEdge u v).getNode j = g.getNode j := rfl

theorem nextId_updateNode [DecidableEq ν] (g : BGraph ν) (id : Nat) (f : ν → ν) :
    (g.updateNode id f).nextId = g.nextId := rfl

theorem nextId_addEdge [DecidableEq ν] (g : BGraph ν) (u v : Nat) :
    (g.addEdge u v).nextId = g.nextId := rfl

def runOk (r : Except String PlanState) : Bool :=
  match r with
  | .ok _ => true
  | .error _ => false

/-! ## Claim theorems -/

/-- C1, counterexample: in the plan emitted for scenario S4 (entries `e1`
and `e2` both synchronously importing the small asset `s`), the surviving
asset `s` is a member of the `assets` set of TWO distinct primary bundles
(the two entry bundles, node ids 0 and 1) — not exactly one. -/
theorem c1_counterexample :
    runOk (createIdealGraphState s4Input cfg20k) = true ∧
    s4S ∈ bundleAssets (planOf (createIdealGraphState s4Input cfg20k)) 0 ∧
    s4S ∈ bundleAssets (planOf (createIdealGraphState s4Input cfg20k)) 1 ∧
    bundlesContaining (planOf (createIdealGraphState s4Input cfg20k)) s4S = 2 := by
  decide

/-- C3, evaluation at the failing input: entry `e2` synchronously imports
entry asset `e1` and both entries import the 30000-byte asset `x`
(`minBundleSize` 20000).  The sole surviving bundle holds assets
`[e2, x, e1]` whose sizes sum to 30200, but its `size` field is 60200: the
phase-5 entry-sibling fold added `x.stats.size` again when absorbing the
`e1` bundle even though `x` was already a member of the entry's `assets`
set (the `Set.add` was a no-op but `size +=` is unconditional). -/
theorem c3_size_mismatch_run :
    runOk (createIdealGraphState c3Input cfg20k) = true ∧
    bundleAssets (planOf (createIdealGraphState c3Input cfg20k)) 1 = [s4E2, c3X, s4E1] ∧
    bundleSize (planOf (createIdealGraphState c3Input cfg20k)) 1 = 60200 ∧
    ((bundleAssets (planOf (createIdealGraphState c3Input cfg20k)) 1).map
      (fun a => a.statsSize)).sum = 30200 := by
  decide

/-- C5, counterexample: with entries discovered in the order `z`, `a`
(the reverse of the sorted order of their ids) and both reaching `m`, the
shared bundle is registered in the `bundles` map under the key `"z,a"` —
the reacher ids joined in discovery order — and NOT under `"a,z"`, the
id-sorted concatenation the claim requires. -/
theorem c5_counterexample :
    runOk (createIdealGraphState c5Input cfg20k) = true ∧
    alGet (planOf (createIdealGraphState c5Input cfg20k)).bundles "z,a" = some 2 ∧
    alGet (planOf (createIdealGraphState c5Input cfg20k)).bundles "a,z" = none ∧
    sharedBundleKey [c5Z, c5A] = "z,a" ∧
    sharedBundleKey [c5Z, c5A] ≠ "a,z" := by
  decide

def c7Dep : Dep := ⟨"d7", .lazy, false, some .inline, false, none⟩

def c7Child : Asset := ⟨"c7", "js", "browser", false, none, 10⟩

/-- C7, evaluation at the failing input: for a lazy dependency with
`bundleBehavior = 'inline'` and a child asset with `bundleBehavior = null`,
the async-split call site passes
`dependency.bundleBehavior ?? childAsset.bundleBehavior` (= `inline`), but
the bundle `createBundle` returns carries `asset.bundleBehavior` (= null):
the option argument is silently discarded.  The `needsStableName`
derivation does behave as the claim states (`false`, since the dependency
side is inline). -/
theorem c7_bundle_behavior_dropped :
    (asyncSplitBundle c7Dep c7Child "t").bundleBehavior = none ∧
    c7Dep.bundleBehavior.orElse (fun _ => c7Child.bundleBehavior) = some .inline ∧
    (asyncSplitBundle c7Dep c7Child "t").bundleBehavior ≠
      c7Dep.bundleBehavior.orElse (fun _ => c7Child.bundleBehavior) ∧
    (asyncSplitBundle c7Dep c7Child "t").needsStableName = false := by
  decide

def c4P : Asset := ⟨"p4", "js", "browser", false, none, 1⟩

def c4C : Asset := ⟨"c4", "js", "browser", false, none, 1⟩

def c4X : Asset := ⟨"x4", "js", "browser", false, none, 1⟩

def c4Y : Asset := ⟨"y4", "js", "browser", false, none, 1⟩

/-- An `asyncBundleRootGraph`: synthetic root (0) → `p4` (1) → `c4` (2);
the child `c4` has exactly one parent. -/
def c4Graph : CGraph ARNode :=
  { nextId := 3
    nodes := [(0, .root), (1, .asset c4P), (2, .asset c4C)]
    keys := [("p4", 1), ("c4", 2)]
    edges := [(0, 1), (1, 2)] }

/-- C4, counterexample: in the phase-3 async-children update, a child with
a single parent whose `ancestorAssets` entry is already defined (here
`[x4]`) is INTERSECTED with `combined` (here `[y4]`), yielding `[]` — not
unioned to `[x4, y4]` as the claim's single-parent case requires. -/
theorem c4_counterexample :
    (c4Graph.connectedTo 2).length = 1 ∧
    propagateToChildren c4Graph 1 [c4Y] [(c4C, [c4X])] = .ok [(c4C, [])] ∧
    slUnion [c4X] [c4Y] = [c4X, c4Y] ∧
    ([] : List Asset) ≠ [c4X, c4Y] :=
  ⟨by decide, rfl, by decide, by decide⟩

/-- C8: the planner is a pure function of the input graph and the resolved
config; two runs on equal inputs produce structurally identical plans
(bundle graph with assets, sizes, sourceBundles, internalizedAssetIds, the
dependencyBundleGraph, and all other emitted components). -/
theorem c8_determinism :
    ∀ (g1 g2 : InputGraph) (cfg1 cfg2 : BundlerCfg), g1 = g2 → cfg1 = cfg2 →
      createIdealGraphState g1 cfg1 = createIdealGraphState g2 cfg2 ∧
      createIdealGraph g1 cfg1 = createIdealGraph g2 cfg2 := by
  intro g1 g2 cfg1 cfg2 h1 h2
  subst h1
  subst h2
  exact ⟨rfl, rfl⟩

theorem c8_witness :
    createIdealGraphState s4Input cfg20k = createIdealGraphState s4Input cfg20k ∧
    createIdealGraph s4Input cfg20k = createIdealGraph s4Input cfg20k :=
  c8_determinism s4Input s4Input cfg20k cfg20k rfl rfl

/-- C9: the dependency-resolution step of the traversals (the
`getDependencyAssets` handling at lines 352-358 and 498-505) aborts with an
invariant violation exactly when a dependency resolves to two or more
assets; zero assets skip the dependency (`.ok none`) and exactly one
proceeds with it (`.ok (some a)`).  The abort is an `Except.error`, which
the planner propagates, so no partial plan is produced. -/
theorem c9_dependency_resolution_invariant :
    ∀ assets : List Asset,
      resolveSingle assets =
        if 2 ≤ assets.length then
          .error "InvariantViolation: assets.length === 1"
        else .ok assets.head? := by
  intro assets
  match assets with
  | [] => rfl
  | [a] => rfl
  | a :: b :: t =>
    have h : 2 ≤ (a :: b :: t).length := by
      simp [List.length_cons]
    simp [resolveSingle, h]

/-! ## removeBundle specification -/

/-- Monotone growth of a bundle under the asset-copying updates of phase 5:
assets only gain members, `sourceBundles` and `type` are untouched, and
`size` never shrinks. -/
def grewTo (b b' : Bundle) : Prop :=
  (∀ a, a ∈ b.assets → a ∈ b'.assets) ∧
  b'.sourceBundles = b.sourceBundles ∧
  b.size ≤ b'.size ∧
  b'.type = b.type

theorem grewTo_refl (b : Bundle) : grewTo b b :=
  ⟨fun _ h => h, rfl, le_refl _, rfl⟩

theorem grewTo_trans {b1 b2 b3 : Bundle} (h1 : grewTo b1 b2)
    (h2 : grewTo b2 b3) : grewTo b1 b3 :=
  ⟨fun a ha => h2.1 a (h1.1 a ha), h2.2.1.trans h1.2.1,
   h1.2.2.1.trans h2.2.2.1, h2.2.2.2.trans h1.2.2.2⟩

/-- The single-bundle update used by `removeBundle` and the fold loops. -/
theorem grewTo_addAsset (b : Bundle) (a : Asset) :
    grewTo b { b with assets := slAdd b.assets a, size := b.size + a.statsSize } :=
  ⟨fun x hx => mem_slAdd_of_mem a hx, rfl, Nat.le_add_right _ _, rfl⟩

theorem except_bind_ok (a : α) (f : α → Except String β) :
    (Except.ok a >>= f) = f a := rfl

theorem except_bind_err (e : String) (f : α → Except String β) :
    ((Except.error e : Except String α) >>= f) = .error e := rfl

theorem nt_some (msg : String) (a : α) : nt msg (some a) = .ok a := rfl

theorem nt_none (msg : String) : (nt msg (none : Option α)) = .error msg := rfl

theorem rbAddToSources_mono (a : Asset) :
    ∀ (sids : List Nat) (g g' : BGraph Bundle),
      rbAddToSources a sids g = .ok g' →
      ∀ j, (∀ bj, g.getNode j = some bj →
              ∃ bj', g'.getNode j = some bj' ∧ grewTo bj bj') ∧
           (g.getNode j = none → g'.getNode j = none) := by
  intro sids
  induction sids with
  | nil =>
    intro g g' h j
    simp only [rbAddToSources] at h
    cases h
    exact ⟨fun bj hb => ⟨bj, hb, grewTo_refl bj⟩, fun hn => hn⟩
  | cons sid rest ih =>
    intro g g' h j
    simp only [rbAddToSources] at h
    cases hs : g.getNode sid with
    | none =>
      rw [hs, nt_none, except_bind_err] at h
      cases h
    | some bs =>
      rw [hs, nt_some, except_bind_ok] at h
      have step := ih _ _ h j
      constructor
      · intro bj hb
        have hup := getNode_updateNode g sid j (fun sb =>
          { sb with assets := slAdd sb.assets a, size := sb.size + a.statsSize })
        by_cases hj : j = sid
        · subst hj
          rw [hup, if_pos rfl, hb] at step
          obtain ⟨bj', hb', hg⟩ := step.1 _ rfl
          exact ⟨bj', hb', grewTo_trans (grewTo_addAsset bj a) hg⟩
        · rw [hup, if_neg hj, hb] at step
          exact step.1 bj rfl
      · intro hn
        have hup := getNode_updateNode g sid j (fun sb =>
          { sb with assets := slAdd sb.assets a, size := sb.size + a.statsSize })
        by_cases hj : j = sid
        · subst hj
          rw [hs] at hn
          cases hn
        · rw [hup, if_neg hj, hn] at step
          exact step.2 rfl

theorem rbAddToSources_adds (a : Asset) :
    ∀ (sids : List Nat) (g g' : BGraph Bundle),
      rbAddToSources a sids g = .ok g' →
      ∀ s, s ∈ sids → ∃ bs, g'.getNode s = some bs ∧ a ∈ bs.assets := by
  intro sids
  induction sids with
  | nil =>
    intro g g' h s hs
    cases hs
  | cons sid rest ih =>
    intro g g' h s hs
    simp only [rbAddToSources] at h
    cases hn : g.getNode sid with
    | none =>
      rw [hn, nt_none, except_bind_err] at h
      cases h
    | some bs =>
      rw [hn, nt_some, except_bind_ok] at h
      rcases List.mem_cons.mp hs with heq | hmem
      · subst heq
        have hmid : (g.updateNode s (fun sb =>
            { sb with assets := slAdd sb.assets a, size := sb.size + a.statsSize })).getNode s =
            some { bs with assets := slAdd bs.assets a, size := bs.size + a.statsSize } := by
          rw [getNode_updateNode, if_pos rfl, hn]
          rfl
        obtain ⟨bj', hb', hg⟩ := (rbAddToSources_mono a rest _ _ h s).1 _ hmid
        exact ⟨bj', hb', hg.1 a (mem_slAdd_self _ a)⟩
      · exact ih _ _ h s hmem

theorem rbAssetsGo_mono (sids : List Nat) :
    ∀ (l : List Asset) (g g' : BGraph Bundle),
      rbAssetsGo sids l g = .ok g' →
      ∀ j, (∀ bj, g.getNode j = some bj →
              ∃ bj', g'.getNode j = some bj' ∧ grewTo bj bj') ∧
           (g.getNode j = none → g'.getNode j = none) := by
  intro l
  induction l with
  | nil =>
    intro g g' h j
    simp only [rbAssetsGo] at h
    cases h
    exact ⟨fun bj hb => ⟨bj, hb, grewTo_refl bj⟩, fun hn => hn⟩
  | cons a rest ih =>
    intro g g' h j
    simp only [rbAssetsGo] at h
    cases hstep : rbAddToSources a sids g with
    | error e =>
      rw [hstep, except_bind_err] at h
      cases h
    | ok g1 =>
      rw [hstep, except_bind_ok] at h
      have m1 := rbAddToSources_mono a sids g g1 hstep j
      have m2 := ih g1 g' h j
      constructor
      · intro bj hb
        obtain ⟨b1, hb1, hg1⟩ := m1.1 bj hb
        obtain ⟨b2, hb2, hg2⟩ := m2.1 b1 hb1
        exact ⟨b2, hb2, grewTo_trans hg1 hg2⟩
      · intro hn
        exact m2.2 (m1.2 hn)

theorem rbAssetsGo_adds (sids : List Nat) :
    ∀ (l : List Asset) (g g' : BGraph Bundle),
      rbAssetsGo sids l g = .ok g' →
      ∀ a, a ∈ l → ∀ s, s ∈ sids →
        ∃ bs, g'.getNode s = some bs ∧ a ∈ bs.assets := by
  intro l
  induction l with
  | nil =>
    intro g g' h a ha
    cases ha
  | cons a0 rest ih =>
    intro g g' h a ha s hs
    simp only [rbAssetsGo] at h
    cases hstep : rbAddToSources a0 sids g with
    | error e =>
      rw [hstep, except_bind_err] at h
      cases h
    | ok g1 =>
      rw [hstep, except_bind_ok] at h
      rcases List.mem_cons.mp ha with heq | hmem
      · subst heq
        obtain ⟨bs, hbs, hmem0⟩ := rbAddToSources_adds a sids g g1 hstep s hs
        obtain ⟨b2, hb2, hg2⟩ := (rbAssetsGo_mono sids rest g1 g' h s).1 bs hbs
        exact ⟨b2, hb2, hg2.1 a hmem0⟩
      · exact ih g1 g' h a hmem s hs

/-- Specification of `removeBundle` (lines 970-982): the bundle node is
removed, and every asset of the bundle becomes a member of the `assets` set
of every (distinct) source bundle, which survives.  Moreover every other
node only grows (assets gain members, `sourceBundles`, `type` unchanged,
`size` monotone). -/
theorem removeBundle_spec (g : BGraph Bundle) (id : Nat) (b : Bundle)
    (g' : BGraph Bundle) (hb : g.getNode id = some b)
    (h : removeBundle g id = .ok g') :
    g'.getNode id = none ∧
    (∀ a, a ∈ b.assets → ∀ s, s ∈ b.sourceBundles → s ≠ id →
      ∃ bs, g'.getNode s = some bs ∧ a ∈ bs.assets) ∧
    (∀ j, j ≠ id → ∀ bj, g.getNode j = some bj →
      ∃ bj', g'.getNode j = some bj' ∧ grewTo bj bj') ∧
    (∀ j, g.getNode j = none → g'.getNode j = none) := by
  simp only [removeBundle] at h
  rw [hb, nt_some, except_bind_ok] at h
  cases hgo : rbAssetsGo b.sourceBundles b.assets g with
  | error e =>
    rw [hgo, except_bind_err] at h
    cases h
  | ok g1 =>
    rw [hgo, except_bind_ok] at h
    have hg' : g' = g1.removeNode id := by
      cases h
      rfl
    subst hg'
    refine ⟨by rw [getNode_removeNode, if_pos rfl], ?_, ?_, ?_⟩
    · intro a ha s hs hne
      obtain ⟨bs, hbs, hmem⟩ := rbAssetsGo_adds _ _ _ _ hgo a ha s hs
      refine ⟨bs, ?_, hmem⟩
      rw [getNode_removeNode, if_neg hne]
      exact hbs
    · intro j hj bj hbj
      obtain ⟨bj', hbj', hg⟩ := (rbAssetsGo_mono _ _ _ _ hgo j).1 bj hbj
      refine ⟨bj', ?_, hg⟩
      rw [getNode_removeNode, if_neg hj]
      exact hbj'
    · intro j hn
      rw [getNode_removeNode]
      by_cases hj : j = id
      · rw [if_pos hj]
      · rw [if_neg hj]
        exact (rbAssetsGo_mono _ _ _ _ hgo j).2 hn

/-- C1, amended: placement adds each asset to a single bundle, but phase-5
small-shared merging duplicates: `removeBundle` (applied by the phase-5
merge loop to every small shared bundle) removes the bundle node and makes
every one of its assets a member of the `assets` set of EVERY source
bundle, so an asset can be a primary member of several bundles at plan
emission. -/
theorem c1_amended_merge_duplicates :
    ∀ (g : BGraph Bundle) (id : Nat) (b : Bundle) (g' : BGraph Bundle),
      g.getNode id = some b →
      removeBundle g id = .ok g' →
      g'.getNode id = none ∧
      ∀ a, a ∈ b.assets → ∀ s, s ∈ b.sourceBundles → s ≠ id →
        ∃ bs, g'.getNode s = some bs ∧ a ∈ bs.assets := by
  intro g id b g' hb h
  have hs := removeBundle_spec g id b g' hb h
  exact ⟨hs.1, hs.2.1⟩

def c1wE1 : Bundle := createBundleWithAsset s4E1 "t" true none

def c1wE2 : Bundle := createBundleWithAsset s4E2 "t" true none

def c1wShared : Bundle :=
  { createBundleNoAsset "t" "js" "browser" with
      assets := [s4S], size := 5000, sourceBundles := [0, 1] }

def c1wG : BGraph Bundle :=
  ⟨3, [(0, c1wE1), (1, c1wE2), (2, c1wShared)], [(0, 2), (1, 2)]⟩

def c1wRemoved : BGraph Bundle :=
  match removeBundle c1wG 2 with
  | .ok g => g
  | .error _ => BGraph.empty

theorem c1_witness :
    c1wRemoved.getNode 2 = none ∧
    s4S ∈ (c1wRemoved.getNode 0).elim [] (fun b => b.assets) ∧
    s4S ∈ (c1wRemoved.getNode 1).elim [] (fun b => b.assets) := by
  have h := c1_amended_merge_duplicates c1wG 2 c1wShared c1wRemoved rfl rfl
  refine ⟨h.1, ?_, ?_⟩
  · obtain ⟨bs, hbs, hm⟩ := h.2 s4S (by decide) 0 (by decide) (by decide)
    rw [hbs]
    exact hm
  · obtain ⟨bs, hbs, hm⟩ := h.2 s4S (by decide) 1 (by decide) (by decide)
    rw [hbs]
    exact hm

theorem foldl_addEdge_preserves (bundleId : Nat) :
    ∀ (l : List Nat) (st : PlanState),
      (∀ j, (l.foldl (fun st sb =>
        if bundleId ≠ sb then { st with bundleGraph := st.bundleGraph.addEdge sb bundleId }
        else st) st).bundleGraph.getNode j = st.bundleGraph.getNode j) ∧
      (l.foldl (fun st sb =>
        if bundleId ≠ sb then { st with bundleGraph := st.bundleGraph.addEdge sb bundleId }
        else st) st).bundleGraph.nextId = st.bundleGraph.nextId ∧
      (l.foldl (fun st sb =>
        if bundleId ≠ sb then { st with bundleGraph := st.bundleGraph.addEdge sb bundleId }
        else st) st).bundles = st.bundles := by
  intro l
  induction l with
  | nil => intro st; exact ⟨fun j => rfl, rfl, rfl⟩
  | cons x rest ih =>
    intro st
    simp only [List.foldl_cons]
    by_cases hx : bundleId ≠ x
    · rw [if_pos hx]
      exact ih _
    · rw [if_neg hx]
      exact ih _

theorem placeSharedCont_spec (st : PlanState) (asset : Asset) (bundleId : Nat)
    (sourceBundles : List Nat) (st' : PlanState)
    (h : placeSharedCont st asset bundleId sourceBundles = .ok st') :
    st'.bundleGraph.nextId = st.bundleGraph.nextId ∧
    st'.bundles = st.bundles ∧
    ∀ b, st.bundleGraph.getNode bundleId = some b →
      st'.bundleGraph.getNode bundleId =
        some { b with assets := slAdd b.assets asset,
                      size := b.size + asset.statsSize } := by
  simp only [placeSharedCont] at h
  have hpres := foldl_addEdge_preserves bundleId sourceBundles
    { st with bundleGraph := st.bundleGraph.updateNode bundleId (fun b =>
        { b with assets := slAdd b.assets asset, size := b.size + asset.statsSize }) }
  cases hx : st.bundleGraph.getNode bundleId with
  | none =>
    have hnone : (sourceBundles.foldl (fun (st : PlanState) (sb : Nat) =>
        if bundleId ≠ sb then { st with bundleGraph := st.bundleGraph.addEdge sb bundleId }
        else st)
        { st with bundleGraph := st.bundleGraph.updateNode bundleId (fun b =>
            { b with assets := slAdd b.assets asset, size := b.size + asset.statsSize }) }
        ).bundleGraph.getNode bundleId = none := by
      rw [hpres.1 bundleId, getNode_updateNode, if_pos rfl, hx]
      rfl
    rw [hnone, nt_none, except_bind_err] at h
    cases h
  | some b0 =>
    have hsome : (sourceBundles.foldl (fun (st : PlanState) (sb : Nat) =>
        if bundleId ≠ sb then { st with bundleGraph := st.bundleGraph.addEdge sb bundleId }
        else st)
        { st with bundleGraph := st.bundleGraph.updateNode bundleId (fun b =>
            { b with assets := slAdd b.assets asset, size := b.size + asset.statsSize }) }
        ).bundleGraph.getNode bundleId =
        some { b0 with assets := slAdd b0.assets asset,
                       size := b0.size + asset.statsSize } := by
      rw [hpres.1 bundleId, getNode_updateNode, if_pos rfl, hx]
      rfl
    rw [hsome, nt_some, except_bind_ok] at h
    cases h
    refine ⟨hpres.2.1, hpres.2.2, ?_⟩
    intro b hb
    cases hb
    exact hsome

/-- C5, amended: the shared-bundle key is the concatenation of the reacher
asset ids in the order of the computed `reachable` array (discovery order),
with no sorting; when the key is already present in the `bundles` map the
existing bundle is reused — no new node is created, the `bundles` map is
unchanged, and the asset is added (with its size) to the keyed bundle.
Since the planner is a pure function of its input, the key is stable across
runs on identical input. -/
theorem c5_amended_key_reuse :
    ∀ (st : PlanState) (asset : Asset) (reachable : List Asset) (bid : Nat)
      (st' : PlanState),
      alGet st.bundles (sharedBundleKey reachable) = some bid →
      placeShared st asset reachable = .ok st' →
      st'.bundleGraph.nextId = st.bundleGraph.nextId ∧
      st'.bundles = st.bundles ∧
      (∀ b, st.bundleGraph.getNode bid = some b →
        st'.bundleGraph.getNode bid =
          some { b with assets := slAdd b.assets asset,
                        size := b.size + asset.statsSize }) ∧
      sharedBundleKey reachable =
        String.intercalate "," (reachable.map (fun a => a.id)) := by
  intro st asset reachable bid st' hkey h
  simp only [placeShared] at h
  cases hs : sourcesOf st.bundles reachable with
  | error e =>
    rw [hs, except_bind_err] at h
    cases h
  | ok srcs =>
    rw [hs, except_bind_ok] at h
    split at h
    · rename_i heqn
      rw [heqn] at hkey
      cases hkey
    · rename_i bundleId heqs
      rw [hkey] at heqs
      cases heqs
      cases hn : st.bundleGraph.getNode bid with
      | none =>
        rw [hn, nt_none, except_bind_err] at h
        cases h
      | some b0 =>
        rw [hn, nt_some, except_bind_ok] at h
        have hc := placeSharedCont_spec st asset bid srcs st' h
        exact ⟨hc.1, hc.2.1, fun b hb => hc.2.2 b (hn.trans hb), rfl⟩

def c5wRoot : Asset := ⟨"r", "js", "browser", false, none, 100⟩

def c5wAsset : Asset := ⟨"w", "js", "browser", false, none, 7⟩

def c5wRb : Bundle := createBundleWithAsset c5wRoot "t" false none

def c5wSt : PlanState :=
  { initPlanState with
      bundles := [("r", 0)]
      bundleGraph := ⟨1, [(0, c5wRb)], []⟩ }

def c5wSt2 : PlanState :=
  match placeShared c5wSt c5wAsset [c5wRoot] with
  | .ok s => s
  | .error _ => initPlanState

theorem c5_witness :
    c5wSt2.bundleGraph.nextId = c5wSt.bundleGraph.nextId ∧
    c5wSt2.bundles = c5wSt.bundles ∧
    c5wSt2.bundleGraph.getNode 0 =
      some { c5wRb with assets := slAdd c5wRb.assets c5wAsset,
                        size := c5wRb.size + c5wAsset.statsSize } ∧
    sharedBundleKey [c5wRoot] =
      String.intercalate "," ([c5wRoot].map (fun a => a.id)) := by
  have h := c5_amended_key_reuse c5wSt c5wAsset [c5wRoot] 0 c5wSt2 (by decide) rfl
  exact ⟨h.1, h.2.1, h.2.2.1 c5wRb rfl, h.2.2.2⟩

theorem propagateGo_pres (g : CGraph ARNode) (combined : List Asset) :
    ∀ (l : List Nat) (anc anc' : List (Asset × List Asset)),
      propagateGo g combined l anc = .ok anc' →
      ∀ c v, alGet anc c = some v →
        alGet anc' c = some v ∨ alGet anc' c = some (slIntersect v combined) := by
  intro l
  induction l with
  | nil =>
    intro anc anc' h c v hv
    cases h
    exact Or.inl hv
  | cons i rest ih =>
    intro anc anc' h c v hv
    simp only [propagateGo] at h
    cases hgn : g.getNode i with
    | none =>
      rw [hgn, nt_none, except_bind_err] at h
      cases h
    | some nd =>
      rw [hgn, nt_some, except_bind_ok] at h
      cases nd with
      | root => cases h
      | asset child =>
        replace h : (match alGet anc child with
          | none => propagateGo g combined rest (alSet anc child combined)
          | some availableAssets =>
            propagateGo g combined rest
              (alSet anc child (slIntersect availableAssets combined))) =
          Except.ok anc' := h
        by_cases hc : child = c
        · subst hc
          cases halg : alGet anc child with
          | none =>
            rw [halg] at hv
            cases hv
          | some av =>
            rw [halg] at h
            rw [halg] at hv
            cases hv
            have h1 : alGet (alSet anc child (slIntersect v combined)) child =
                some (slIntersect v combined) := alGet_alSet_self _ _ _
            rcases ih _ _ h child _ h1 with h2 | h2
            · exact Or.inr h2
            · rw [slIntersect_idem] at h2
              exact Or.inr h2
        · cases halg : alGet anc child with
          | none =>
            rw [halg] at h
            have h1 : alGet (alSet anc child combined) c = some v := by
              rw [alGet_alSet_ne _ _ _ _ hc]
              exact hv
            exact ih _ _ h c v h1
          | some av =>
            rw [halg] at h
            have h1 : alGet (alSet anc child (slIntersect av combined)) c = some v := by
              rw [alGet_alSet_ne _ _ _ _ hc]
              exact hv
            exact ih _ _ h c v h1

theorem propagateGo_intersects (g : CGraph ARNode) (combined : List Asset) :
    ∀ (l : List Nat) (anc anc' : List (Asset × List Asset)),
      propagateGo g combined l anc = .ok anc' →
      ∀ c v, alGet anc c = some v →
        (∃ i, i ∈ l ∧ g.getNode i = some (.asset c)) →
        alGet anc' c = some (slIntersect v combined) := by
  intro l
  induction l with
  | nil =>
    intro anc anc' h c v hv hw
    obtain ⟨i, hi, _⟩ := hw
    cases hi
  | cons i0 rest ih =>
    intro anc anc' h c v hv hw
    simp only [propagateGo] at h
    cases hgn : g.getNode i0 with
    | none =>
      rw [hgn, nt_none, except_bind_err] at h
      cases h
    | some nd =>
      rw [hgn, nt_some, except_bind_ok] at h
      cases nd with
      | root => cases h
      | asset child =>
        replace h : (match alGet anc child with
          | none => propagateGo g combined rest (alSet anc child combined)
          | some availableAssets =>
            propagateGo g combined rest
              (alSet anc child (slIntersect availableAssets combined))) =
          Except.ok anc' := h
        obtain ⟨i, hi, hwit⟩ := hw
        by_cases hc : child = c
        · subst hc
          cases halg : alGet anc child with
          | none =>
            rw [halg] at hv
            cases hv
          | some av =>
            rw [halg] at h
            rw [halg] at hv
            cases hv
            have h1 : alGet (alSet anc child (slIntersect v combined)) child =
                some (slIntersect v combined) := alGet_alSet_self _ _ _
            rcases propagateGo_pres g combined rest _ _ h child _ h1 with h2 | h2
            · exact h2
            · rw [slIntersect_idem] at h2
              exact h2
        · have hrest : i ∈ rest := by
            rcases List.mem_cons.mp hi with heq | hmem
            · subst heq
              rw [hgn] at hwit
              cases hwit
              exact absurd rfl hc
            · exact hmem
          cases halg : alGet anc child with
          | none =>
            rw [halg] at h
            have h1 : alGet (alSet anc child combined) c = some v := by
              rw [alGet_alSet_ne _ _ _ _ hc]
              exact hv
            exact ih _ _ h c v h1 ⟨i, hrest, hwit⟩
          | some av =>
            rw [halg] at h
            have h1 : alGet (alSet anc child (slIntersect av combined)) c = some v := by
              rw [alGet_alSet_ne _ _ _ _ hc]
              exact hv
            exact ih _ _ h c v h1 ⟨i, hrest, hwit⟩

/-- C4, amended: in the phase-3 update of the current root's async
children (lines 670-682), a child whose `ancestorAssets` entry is already
defined is ALWAYS updated by intersection with `combined`, regardless of
how many parents it has in `asyncBundleRootGraph`; there is no union
branch in this loop (the union/intersection-by-parent-count distinction
exists only for bundle-group siblings). -/
theorem c4_amended_always_intersect :
    ∀ (g : CGraph ARNode) (nodeId : Nat) (combined : List Asset)
      (anc anc' : List (Asset × List Asset)) (c : Asset) (prior : List Asset),
      propagateToChildren g nodeId combined anc = .ok anc' →
      alGet anc c = some prior →
      (∃ i, i ∈ g.connectedFrom nodeId ∧ g.getNode i = some (.asset c)) →
      alGet anc' c = some (slIntersect prior combined) := by
  intro g nodeId combined anc anc' c prior h hv hw
  exact propagateGo_intersects g combined _ _ _ h c prior hv hw

theorem c4_witness :
    alGet
      (match propagateToChildren c4Graph 1 [c4Y] [(c4C, [c4X])] with
       | .ok anc => anc
       | .error _ => []) c4C = some (slIntersect [c4X] [c4Y]) := by
  have h := c4_amended_always_intersect c4Graph 1 [c4Y] [(c4C, [c4X])]
    (match propagateToChildren c4Graph 1 [c4Y] [(c4C, [c4X])] with
     | .ok anc => anc
     | .error _ => []) c4C [c4X] rfl rfl ⟨2, by decide, rfl⟩
  exact h

/-! ## Merge-loop (phase 5, small-shared merge) specification -/

theorem alGet_mem [DecidableEq κ] (m : List (κ × ν)) (k : κ) (v : ν)
    (h : alGet m k = some v) : (k, v) ∈ m := by
  induction m with
  | nil => cases h
  | cons p m ih =>
    obtain ⟨k1, v1⟩ := p
    by_cases h1 : k1 = k
    · subst h1
      simp only [alGet, if_pos rfl] at h
      cases h
      exact List.mem_cons_self _ _
    · simp only [alGet, if_neg h1] at h
      exact List.mem_cons_of_mem _ (ih h)

/-- Decidable form of "every source bundle of every shared bundle exists
and is itself non-shared" (true of every state reaching phase 5: sources
are root bundles, created with empty `sourceBundles`). -/
def sourcesNonShared (g : BGraph Bundle) : Bool :=
  g.nodes.all (fun p => p.2.sourceBundles.isEmpty ||
    p.2.sourceBundles.all (fun s =>
      match g.getNode s with
      | some bs => bs.sourceBundles.isEmpty
      | none => false))

theorem sourcesNonShared_spec (g : BGraph Bundle)
    (h : sourcesNonShared g = true) :
    ∀ j bj, g.getNode j = some bj → bj.sourceBundles ≠ [] →
      ∀ s, s ∈ bj.sourceBundles →
        ∃ bs, g.getNode s = some bs ∧ bs.sourceBundles = [] := by
  intro j bj hj hne s hs
  have hmem : (j, bj) ∈ g.nodes := alGet_mem _ _ _ hj
  have hall := (List.all_eq_true.mp h) (j, bj) hmem
  rcases Bool.or_eq_true_iff.mp hall with h1 | h2
  · exact absurd (List.isEmpty_iff.mp h1) hne
  · have hone := (List.all_eq_true.mp h2) s hs
    cases hg : g.getNode s with
    | none =>
      rw [hg] at hone
      cases hone
    | some bs =>
      rw [hg] at hone
      exact ⟨bs, rfl, List.isEmpty_iff.mp hone⟩

theorem rbAddToSources_untouched (a : Asset) :
    ∀ (sids : List Nat) (g g' : BGraph Bundle),
      rbAddToSources a sids g = .ok g' →
      ∀ j, j ∉ sids → g'.getNode j = g.getNode j := by
  intro sids
  induction sids with
  | nil =>
    intro g g' h j _
    cases h
    rfl
  | cons sid rest ih =>
    intro g g' h j hj
    simp only [rbAddToSources] at h
    cases hn : g.getNode sid with
    | none =>
      rw [hn, nt_none, except_bind_err] at h
      cases h
    | some bs =>
      rw [hn, nt_some, except_bind_ok] at h
      have h1 := ih _ _ h j (fun hm => hj (List.mem_cons_of_mem _ hm))
      rw [h1, getNode_updateNode,
        if_neg (fun he => hj (by rw [he]; exact List.mem_cons_self _ _))]

theorem rbAssetsGo_untouched (sids : List Nat) :
    ∀ (l : List Asset) (g g' : BGraph Bundle),
      rbAssetsGo sids l g = .ok g' →
      ∀ j, j ∉ sids → g'.getNode j = g.getNode j := by
  intro l
  induction l with
  | nil =>
    intro g g' h j _
    cases h
    rfl
  | cons a rest ih =>
    intro g g' h j hj
    simp only [rbAssetsGo] at h
    cases hstep : rbAddToSources a sids g with
    | error e =>
      rw [hstep, except_bind_err] at h
      cases h
    | ok g1 =>
      rw [hstep, except_bind_ok] at h
      rw [ih _ _ h j hj, rbAddToSources_untouched a sids g g1 hstep j hj]

/-- `removeBundle` leaves every node other than the removed one and its
sources exactly unchanged. -/
theorem removeBundle_untouched (g : BGraph Bundle) (id : Nat) (b : Bundle)
    (g' : BGraph Bundle) (hb : g.getNode id = some b)
    (h : removeBundle g id = .ok g') :
    ∀ j, j ≠ id → j ∉ b.sourceBundles → g'.getNode j = g.getNode j := by
  intro j hj hjs
  simp only [removeBundle] at h
  rw [hb, nt_some, except_bind_ok] at h
  cases hgo : rbAssetsGo b.sourceBundles b.assets g with
  | error e =>
    rw [hgo, except_bind_err] at h
    cases h
  | ok g1 =>
    rw [hgo, except_bind_ok] at h
    cases h
    rw [getNode_removeNode, if_neg hj]
    exact rbAssetsGo_untouched _ _ _ _ hgo j hjs

/-- Reverse monotonicity for `removeBundle`: every surviving node existed
before with a `grewTo`-related value. -/
theorem removeBundle_rev (g : BGraph Bundle) (id : Nat) (b : Bundle)
    (g' : BGraph Bundle) (hb : g.getNode id = some b)
    (h : removeBundle g id = .ok g') :
    ∀ j bj', g'.getNode j = some bj' →
      j ≠ id ∧ ∃ bj, g.getNode j = some bj ∧ grewTo bj bj' := by
  intro j bj' hj'
  have hspec := removeBundle_spec g id b g' hb h
  have hjne : j ≠ id := by
    intro he
    rw [he, hspec.1] at hj'
    cases hj'
  refine ⟨hjne, ?_⟩
  cases hg : g.getNode j with
  | none =>
    rw [hspec.2.2.2 j hg] at hj'
    cases hj'
  | some bj =>
    obtain ⟨bj2, hbj2, hgrew⟩ := hspec.2.2.1 j hjne bj hg
    rw [hbj2] at hj'
    cases hj'
    exact ⟨bj, rfl, hgrew⟩

/-- The source-bundle well-formedness of states reaching phase 5. -/
def SrcOk (g : BGraph Bundle) : Prop :=
  ∀ j bj, g.getNode j = some bj → bj.sourceBundles ≠ [] →
    ∀ s, s ∈ bj.sourceBundles → ∃ bs, g.getNode s = some bs ∧ bs.sourceBundles = []

theorem removeBundle_SrcOk (g : BGraph Bundle) (id : Nat) (b : Bundle)
    (g1 : BGraph Bundle) (hSrc : SrcOk g) (hb : g.getNode id = some b)
    (hbne : b.sourceBundles ≠ []) (h : removeBundle g id = .ok g1) :
    SrcOk g1 := by
  intro j bj1 hj1 hne s hs
  obtain ⟨hjne, bj, hbj, hgrew⟩ := removeBundle_rev g id b g1 hb h j bj1 hj1
  have hsb : bj1.sourceBundles = bj.sourceBundles := hgrew.2.1
  have hbjne : bj.sourceBundles ≠ [] := by
    rw [hsb] at hne
    exact hne
  rw [hsb] at hs
  obtain ⟨bs, hbs, hbsE⟩ := hSrc j bj hbj hbjne s hs
  have hsne : s ≠ id := by
    intro he
    rw [he, hb] at hbs
    cases hbs
    exact hbne hbsE
  obtain ⟨bs1, hbs1, hg1⟩ := (removeBundle_spec g id b g1 hb h).2.2.1 s hsne bs hbs
  exact ⟨bs1, hbs1, by rw [hg1.2.1, hbsE]⟩

theorem removeBundle_shared_unchanged (g : BGraph Bundle) (id : Nat)
    (b : Bundle) (g1 : BGraph Bundle) (hSrc : SrcOk g)
    (hb : g.getNode id = some b) (hbne : b.sourceBundles ≠ [])
    (h : removeBundle g id = .ok g1) :
    ∀ j bj, j ≠ id → g.getNode j = some bj → bj.sourceBundles ≠ [] →
      g1.getNode j = some bj := by
  intro j bj hjne hbj hne
  have hjs : j ∉ b.sourceBundles := by
    intro hin
    obtain ⟨bs, hbs, hbsE⟩ := hSrc id b hb hbne j hin
    rw [hbj] at hbs
    cases hbs
    exact hne hbsE
  rw [removeBundle_untouched g id b g1 hb h j hjne hjs]
  exact hbj

theorem mergeGo_facts (cfg : BundlerCfg) :
    ∀ (snapshot : List (Nat × Bundle)) (g g' : BGraph Bundle),
      mergeGo cfg snapshot g = .ok g' →
      (∀ j bj', g'.getNode j = some bj' →
        ∃ bj, g.getNode j = some bj ∧ grewTo bj bj') ∧
      (∀ j, g.getNode j = none → g'.getNode j = none) ∧
      (∀ j bj, g.getNode j = some bj → bj.sourceBundles = [] →
        ∃ bj', g'.getNode j = some bj' ∧ grewTo bj bj') := by
  intro snapshot
  induction snapshot with
  | nil =>
    intro g g' h
    cases h
    exact ⟨fun j bj' hj => ⟨bj', hj, grewTo_refl _⟩, fun j hn => hn,
      fun j bj hj _ => ⟨bj, hj, grewTo_refl _⟩⟩
  | cons p rest ih =>
    obtain ⟨id0, bsn⟩ := p
    intro g g' h
    simp only [mergeGo] at h
    cases hcur : g.getNode id0 with
    | none =>
      rw [hcur] at h
      exact ih g g' h
    | some b0 =>
      rw [hcur] at h
      replace h : (if b0.sourceBundles.length > 0 ∧ b0.size < cfg.minBundleSize then
          match removeBundle g id0 with
          | Except.ok g2 => mergeGo cfg rest g2
          | Except.error e => Except.error e
        else mergeGo cfg rest g) = Except.ok g' := h
      by_cases hcond : b0.sourceBundles.length > 0 ∧ b0.size < cfg.minBundleSize
      · rw [if_pos hcond] at h
        cases hrb : removeBundle g id0 with
        | error e =>
          rw [hrb] at h
          cases h
        | ok g1 =>
          rw [hrb] at h
          have irest := ih g1 g' h
          have hspec := removeBundle_spec g id0 b0 g1 hcur hrb
          refine ⟨?_, ?_, ?_⟩
          · intro j bj' hj'
            obtain ⟨bj1, hbj1, hg1⟩ := irest.1 j bj' hj'
            obtain ⟨hjne, bj, hbj, hg0⟩ :=
              removeBundle_rev g id0 b0 g1 hcur hrb j bj1 hbj1
            exact ⟨bj, hbj, grewTo_trans hg0 hg1⟩
          · intro j hn
            exact irest.2.1 j (hspec.2.2.2 j hn)
          · intro j bj hj hjE
            have hjne : j ≠ id0 := by
              intro he
              rw [he, hcur] at hj
              cases hj
              rw [hjE] at hcond
              simp at hcond
            obtain ⟨bj1, hbj1, hg1⟩ := hspec.2.2.1 j hjne bj hj
            obtain ⟨bj2, hbj2, hg2⟩ := irest.2.2 j bj1 hbj1 (by rw [hg1.2.1, hjE])
            exact ⟨bj2, hbj2, grewTo_trans hg1 hg2⟩
      · rw [if_neg hcond] at h
        exact ih g g' h

theorem mergeGo_removes (cfg : BundlerCfg) :
    ∀ (snapshot : List (Nat × Bundle)) (g g' : BGraph Bundle),
      SrcOk g → (snapshot.map Prod.fst).Nodup →
      mergeGo cfg snapshot g = .ok g' →
      ∀ id b, (id, b) ∈ snapshot → g.getNode id = some b →
        b.sourceBundles ≠ [] → b.size < cfg.minBundleSize →
        g'.getNode id = none ∧
        ∀ a, a ∈ b.assets → ∀ s, s ∈ b.sourceBundles →
          ∃ bs, g'.getNode s = some bs ∧ a ∈ bs.assets := by
  intro snapshot
  induction snapshot with
  | nil =>
    intro g g' _ _ _ id b hmem
    cases hmem
  | cons p rest ih =>
    obtain ⟨id0, bsn⟩ := p
    intro g g' hSrc hnodup h id b hmem hgn hne hsize
    have hnodup2 : (rest.map Prod.fst).Nodup := (List.nodup_cons.mp hnodup).2
    have hid0nin : id0 ∉ rest.map Prod.fst := (List.nodup_cons.mp hnodup).1
    simp only [mergeGo] at h
    cases hcur : g.getNode id0 with
    | none =>
      rw [hcur] at h
      rcases List.mem_cons.mp hmem with heq | hmem2
      · cases heq
        rw [hgn] at hcur
        cases hcur
      · exact ih g g' hSrc hnodup2 h id b hmem2 hgn hne hsize
    | some b0 =>
      rw [hcur] at h
      replace h : (if b0.sourceBundles.length > 0 ∧ b0.size < cfg.minBundleSize then
          match removeBundle g id0 with
          | Except.ok g2 => mergeGo cfg rest g2
          | Except.error e => Except.error e
        else mergeGo cfg rest g) = Except.ok g' := h
      by_cases hcond : b0.sourceBundles.length > 0 ∧ b0.size < cfg.minBundleSize
      · rw [if_pos hcond] at h
        cases hrb : removeBundle g id0 with
        | error e =>
          rw [hrb] at h
          cases h
        | ok g1 =>
          rw [hrb] at h
          have hb0ne : b0.sourceBundles ≠ [] := by
            intro he
            rw [he] at hcond
            simp at hcond
          have hSrc1 := removeBundle_SrcOk g id0 b0 g1 hSrc hcur hb0ne hrb
          have hspec := removeBundle_spec g id0 b0 g1 hcur hrb
          have hfacts := mergeGo_facts cfg rest g1 g' h
          rcases List.mem_cons.mp hmem with heq | hmem2
          · have he1 : id = id0 := congrArg Prod.fst heq
            have he2 : b = bsn := congrArg Prod.snd heq
            subst he1
            subst he2
            rw [hgn] at hcur
            cases hcur
            refine ⟨hfacts.2.1 id hspec.1, ?_⟩
            intro a ha s hs
            have hsne : s ≠ id := by
              intro he
              obtain ⟨bs, hbs, hbsE⟩ := hSrc id b hgn hne s hs
              rw [he, hgn] at hbs
              cases hbs
              exact hne hbsE
            obtain ⟨bs1, hbs1, hmem1⟩ := hspec.2.1 a ha s hs hsne
            obtain ⟨bs, hbs, hbsE⟩ := hSrc id b hgn hne s hs
            obtain ⟨bs1', hbs1', hgrew⟩ := hspec.2.2.1 s hsne bs hbs
            rw [hbs1] at hbs1'
            cases hbs1'
            have hbs1E : bs1.sourceBundles = [] := by
              rw [hgrew.2.1, hbsE]
            obtain ⟨bs2, hbs2, hg2⟩ := hfacts.2.2 s bs1 hbs1 hbs1E
            exact ⟨bs2, hbs2, hg2.1 a hmem1⟩
          · have hidne : id ≠ id0 := by
              intro he
              exact hid0nin (he ▸ List.mem_map_of_mem Prod.fst hmem2)
            have hkeep := removeBundle_shared_unchanged g id0 b0 g1 hSrc hcur
              hb0ne hrb id b hidne hgn hne
            exact ih g1 g' hSrc1 hnodup2 h id b hmem2 hkeep hne hsize
      · rw [if_neg hcond] at h
        rcases List.mem_cons.mp hmem with heq | hmem2
        · have he1 : id = id0 := congrArg Prod.fst heq
          have he2 : b = bsn := congrArg Prod.snd heq
          subst he1
          subst he2
          rw [hgn] at hcur
          cases hcur
          exact absurd ⟨List.length_pos.mpr hne, hsize⟩ hcond
        · exact ih g g' hSrc hnodup2 h id b hmem2 hgn hne hsize

/-- C6: (general part) the phase-5 merge loop removes every shared bundle
(nonempty `sourceBundles`) whose `size` is below `config.minBundleSize`
from the bundle graph, and every one of its assets becomes a member of the
`assets` set of every one of its source bundles in the resulting graph
(given the phase-5 well-formedness that sources exist and are non-shared,
and that node ids are unique).  (Concrete part) in scenario S4 the small
shared asset `s` ends up in both entry bundles and no shared bundle
remains in the emitted plan. -/
theorem c6_small_shared_merge :
    (∀ (cfg : BundlerCfg) (g g' : BGraph Bundle),
      sourcesNonShared g = true →
      (g.nodes.map Prod.fst).Nodup →
      mergeLoop cfg g = .ok g' →
      ∀ id b, g.getNode id = some b → b.sourceBundles ≠ [] →
        b.size < cfg.minBundleSize →
        g'.getNode id = none ∧
        ∀ a, a ∈ b.assets → ∀ s, s ∈ b.sourceBundles →
          ∃ bs, g'.getNode s = some bs ∧ a ∈ bs.assets) ∧
    (runOk (createIdealGraphState s4Input cfg20k) = true ∧
     sharedBundleIds (planOf (createIdealGraphState s4Input cfg20k)) = [] ∧
     s4S ∈ bundleAssets (planOf (createIdealGraphState s4Input cfg20k)) 0 ∧
     s4S ∈ bundleAssets (planOf (createIdealGraphState s4Input cfg20k)) 1) := by
  constructor
  · intro cfg g g' hsrc hnodup h id b hb hne hsize
    exact mergeGo_removes cfg g.nodes g g' (sourcesNonShared_spec g hsrc)
      hnodup h id b (alGet_mem _ _ _ hb) hb hne hsize
  · exact ⟨by decide, by decide, by decide, by decide⟩

def c6wMerged : BGraph Bundle :=
  match mergeLoop cfg20k c1wG with
  | .ok g => g
  | .error _ => BGraph.empty

theorem c6_witness :
    c6wMerged.getNode 2 = none ∧
    s4S ∈ (c6wMerged.getNode 0).elim [] (fun b => b.assets) ∧
    s4S ∈ (c6wMerged.getNode 1).elim [] (fun b => b.assets) := by
  have h := c6_small_shared_merge.1 cfg20k c1wG c6wMerged (by decide)
    (by decide) rfl 2 c1wShared rfl (by decide) (by decide)
  refine ⟨h.1, ?_, ?_⟩
  · obtain ⟨bs, hbs, hm⟩ := h.2 s4S (by decide) 0 (by decide)
    rw [hbs]
    exact hm
  · obtain ⟨bs, hbs, hm⟩ := h.2 s4S (by decide) 1 (by decide)
    rw [hbs]
    exact hm

/-! ## Entry-sibling fold and orphan-drop specification -/

theorem dmGet_fst [DecidableEq κ] (m : List (κ × ν)) (k : κ) (d : ν) :
    (dmGet m k d).1 = (alGet m k).getD d := by
  unfold dmGet
  cases alGet m k <;> rfl

theorem alGet_append_single_ne [DecidableEq κ] (m : List (κ × ν)) (k0 k : κ)
    (v0 : ν) (h : k ≠ k0) : alGet (m ++ [(k0, v0)]) k = alGet m k := by
  induction m with
  | nil =>
    simp only [List.nil_append, alGet]
    rw [if_neg (fun he => h he.symm)]
  | cons p m ih =>
    obtain ⟨k1, v1⟩ := p
    by_cases h1 : k1 = k
    · simp [alGet, h1]
    · simp only [List.cons_append, alGet, if_neg h1]
      exact ih

theorem alGet_dmGet_ne [DecidableEq κ] (m : List (κ × ν)) (k k' : κ) (d : ν)
    (h : k' ≠ k) : alGet (dmGet m k d).2 k' = alGet m k' := by
  unfold dmGet
  cases hm : alGet m k with
  | some v => rfl
  | none => exact alGet_append_single_ne m k k' d h

theorem alGet_dmGet_alSet_ne [DecidableEq κ] (m : List (κ × ν)) (k k' : κ)
    (d v : ν) (h : k' ≠ k) :
    alGet (alSet (dmGet m k d).2 k v) k' = alGet m k' := by
  rw [alGet_alSet_ne _ _ _ _ (fun he => h he.symm), alGet_dmGet_ne m k k' d h]

/-- Types and node existence are preserved by the phase-5 fold's graph
mutations. -/
def typesPreserved (g g' : BGraph Bundle) : Prop :=
  ∀ j, (g'.getNode j).map (fun b => b.type) = (g.getNode j).map (fun b => b.type)

theorem typesPreserved_refl (g : BGraph Bundle) : typesPreserved g g :=
  fun _ => rfl

theorem typesPreserved_trans {g1 g2 g3 : BGraph Bundle}
    (h1 : typesPreserved g1 g2) (h2 : typesPreserved g2 g3) :
    typesPreserved g1 g3 :=
  fun j => (h2 j).trans (h1 j)

theorem typesPreserved_updateNode (g : BGraph Bundle) (id : Nat)
    (f : Bundle → Bundle) (hf : ∀ b, (f b).type = b.type) :
    typesPreserved g (g.updateNode id f) := by
  intro j
  rw [getNode_updateNode]
  by_cases hj : j = id
  · rw [if_pos hj]
    cases g.getNode j with
    | none => rfl
    | some b => simp [hf b]
  · rw [if_neg hj]

theorem typesPreserved_removeEdge (g : BGraph Bundle) (u v : Nat) :
    typesPreserved g (g.removeEdge u v) :=
  fun _ => rfl

theorem typesPreserved_absorbAssets (targetId : Nat) :
    ∀ (l : List Asset) (g : BGraph Bundle),
      typesPreserved g (absorbAssets targetId l g) := by
  intro l
  induction l with
  | nil => intro g; exact typesPreserved_refl g
  | cons a rest ih =>
    intro g
    simp only [absorbAssets, List.foldl_cons]
    exact typesPreserved_trans
      (typesPreserved_updateNode g targetId (fun eb =>
        { eb with assets := slAdd eb.assets a, size := eb.size + a.statsSize })
        (fun b => rfl))
      (ih _)

/-- The fold only writes `reachableAsyncRoots` entries for the sibling ids
it processes. -/
theorem foldSiblings_raR_untouched (e : Asset) (eid : Nat) :
    ∀ (sibs : List Nat) (g : BGraph Bundle) (raR : List (Nat × List Asset))
      (g' : BGraph Bundle) (raR' : List (Nat × List Asset)),
      foldSiblings e eid sibs g raR = .ok (g', raR') →
      ∀ k, k ∉ sibs → alGet raR' k = alGet raR k := by
  intro sibs
  induction sibs with
  | nil =>
    intro g raR g' raR' h k _
    cases h
    rfl
  | cons sid rest ih =>
    intro g raR g' raR' h k hk
    have hkne : k ≠ sid := fun he => hk (by rw [he]; exact List.mem_cons_self _ _)
    have hkrest : k ∉ rest := fun hm => hk (List.mem_cons_of_mem _ hm)
    simp only [foldSiblings] at h
    cases hsib : g.getNode sid with
    | none =>
      rw [hsib, nt_none, except_bind_err] at h
      cases h
    | some sibling =>
      rw [hsib, nt_some, except_bind_ok] at h
      cases heb : g.getNode eid with
      | none =>
        rw [heb, nt_none, except_bind_err] at h
        cases h
      | some entryBundle =>
        rw [heb, nt_some, except_bind_ok] at h
        by_cases hty : sibling.type ≠ entryBundle.type
        · rw [if_pos hty] at h
          exact ih _ _ _ _ h k hkrest
        · rw [if_neg hty] at h
          by_cases hlen : sibling.sourceBundles.length > 1
          · rw [if_pos hlen] at h
            by_cases hmem : eid ∈ sibling.sourceBundles
            · rw [if_pos hmem] at h
              by_cases hone : (sibling.sourceBundles.erase eid).length = 1
              · rw [if_pos hone] at h
                cases hhd : (sibling.sourceBundles.erase eid).head? with
                | none =>
                  rw [hhd, nt_none, except_bind_err] at h
                  cases h
                | some loneId =>
                  rw [hhd, nt_some, except_bind_ok] at h
                  cases hlone : ((absorbAssets eid sibling.assets g
                      |>.removeEdge eid sid).updateNode sid
                      (fun s => { s with sourceBundles := [] })).getNode loneId with
                  | none =>
                    rw [hlone, nt_none, except_bind_err] at h
                    cases h
                  | some lone =>
                    rw [hlone, nt_some, except_bind_ok] at h
                    rw [ih _ _ _ _ h k hkrest, alGet_dmGet_alSet_ne _ _ _ _ _ hkne]
              · rw [if_neg hone] at h
                rw [ih _ _ _ _ h k hkrest, alGet_dmGet_alSet_ne _ _ _ _ _ hkne]
            · rw [if_neg hmem] at h
              cases h
          · rw [if_neg hlen] at h
            rw [ih _ _ _ _ h k hkrest, alGet_dmGet_alSet_ne _ _ _ _ _ hkne]

theorem typesPreserved_some {g g' : BGraph Bundle} (h : typesPreserved g g')
    {j : Nat} {b : Bundle} (hb : g.getNode j = some b) :
    ∃ b', g'.getNode j = some b' ∧ b'.type = b.type := by
  have hj := h j
  rw [hb] at hj
  cases hg : g'.getNode j with
  | none =>
    rw [hg] at hj
    cases hj
  | some b' =>
    rw [hg] at hj
    exact ⟨b', rfl, Option.some.inj hj⟩

/-- Part (a) of the fold specification: processing an entry touches, for
every same-type sibling in its snapshot, the `reachableAsyncRoots` entry of
that sibling — auto-creating an empty set when absent — and deletes the
entry asset from it. -/
theorem foldSiblings_autovivify (e : Asset) (eid : Nat) :
    ∀ (sibs : List Nat) (g : BGraph Bundle) (raR : List (Nat × List Asset))
      (g' : BGraph Bundle) (raR' : List (Nat × List Asset)),
      sibs.Nodup →
      foldSiblings e eid sibs g raR = .ok (g', raR') →
      ∀ sid, sid ∈ sibs →
        ∀ sb eb, g.getNode sid = some sb → g.getNode eid = some eb →
          sb.type = eb.type →
          alGet raR' sid = some (((alGet raR sid).getD []).erase e) := by
  intro sibs
  induction sibs with
  | nil =>
    intro g raR g' raR' _ h sid hs
    cases hs
  | cons sid0 rest ih =>
    intro g raR g' raR' hnodup h sid hs sb eb hsb heb htyeq
    have hnodup2 : rest.Nodup := (List.nodup_cons.mp hnodup).2
    have hsid0nin : sid0 ∉ rest := (List.nodup_cons.mp hnodup).1
    simp only [foldSiblings] at h
    cases hsib : g.getNode sid0 with
    | none =>
      rw [hsib, nt_none, except_bind_err] at h
      cases h
    | some sibling =>
      rw [hsib, nt_some, except_bind_ok] at h
      cases hebc : g.getNode eid with
      | none =>
        rw [hebc, nt_none, except_bind_err] at h
        cases h
      | some entryBundle =>
        rw [hebc, nt_some, except_bind_ok] at h
        rw [heb] at hebc
        cases hebc
        by_cases hty : sibling.type = eb.type
        · rw [if_neg (fun hne => hne hty)] at h
          have hraR1 : ∀ k, k ≠ sid0 →
              alGet (alSet (dmGet raR sid0 []).2 sid0
                ((dmGet raR sid0 []).1.erase e)) k = alGet raR k :=
            fun k hk => alGet_dmGet_alSet_ne _ _ _ _ _ hk
          have hraR1self : alGet (alSet (dmGet raR sid0 []).2 sid0
              ((dmGet raR sid0 []).1.erase e)) sid0 =
              some (((alGet raR sid0).getD []).erase e) := by
            rw [alGet_alSet_self, dmGet_fst]
          have hg2base : typesPreserved g
              ((absorbAssets eid sibling.assets g).removeEdge eid sid0) :=
            typesPreserved_trans (typesPreserved_absorbAssets eid sibling.assets g)
              (typesPreserved_removeEdge _ _ _)
          rcases List.mem_cons.mp hs with heq | hmem
          · subst heq
            -- the target is the head sibling: its entry is written, then untouched
            by_cases hlen : sibling.sourceBundles.length > 1
            · rw [if_pos hlen] at h
              by_cases hmemE : eid ∈ sibling.sourceBundles
              · rw [if_pos hmemE] at h
                by_cases hone : (sibling.sourceBundles.erase eid).length = 1
                · rw [if_pos hone] at h
                  cases hhd : (sibling.sourceBundles.erase eid).head? with
                  | none =>
                    rw [hhd, nt_none, except_bind_err] at h
                    cases h
                  | some loneId =>
                    rw [hhd, nt_some, except_bind_ok] at h
                    cases hlone : ((absorbAssets eid sibling.assets g
                        |>.removeEdge eid sid).updateNode sid
                        (fun s => { s with sourceBundles := [] })).getNode loneId with
                    | none =>
                      rw [hlone, nt_none, except_bind_err] at h
                      cases h
                    | some lone =>
                      rw [hlone, nt_some, except_bind_ok] at h
                      rw [foldSiblings_raR_untouched e eid rest _ _ _ _ h sid hsid0nin]
                      exact hraR1self
                · rw [if_neg hone] at h
                  rw [foldSiblings_raR_untouched e eid rest _ _ _ _ h sid hsid0nin]
                  exact hraR1self
              · rw [if_neg hmemE] at h
                cases h
            · rw [if_neg hlen] at h
              rw [foldSiblings_raR_untouched e eid rest _ _ _ _ h sid hsid0nin]
              exact hraR1self
          · -- the target sits deeper in the list
            have hne0 : sid ≠ sid0 := fun he => hsid0nin (he ▸ hmem)
            by_cases hlen : sibling.sourceBundles.length > 1
            · rw [if_pos hlen] at h
              by_cases hmemE : eid ∈ sibling.sourceBundles
              · rw [if_pos hmemE] at h
                by_cases hone : (sibling.sourceBundles.erase eid).length = 1
                · rw [if_pos hone] at h
                  cases hhd : (sibling.sourceBundles.erase eid).head? with
                  | none =>
                    rw [hhd, nt_none, except_bind_err] at h
                    cases h
                  | some loneId =>
                    rw [hhd, nt_some, except_bind_ok] at h
                    cases hlone : ((absorbAssets eid sibling.assets g
                        |>.removeEdge eid sid0).updateNode sid0
                        (fun s => { s with sourceBundles := [] })).getNode loneId with
                    | none =>
                      rw [hlone, nt_none, except_bind_err] at h
                      cases h
                    | some lone =>
                      rw [hlone, nt_some, except_bind_ok] at h
                      have hg2 : typesPreserved g (((absorbAssets eid sibling.assets g
                          |>.removeEdge eid sid0).updateNode sid0
                          (fun s => { s with sourceBundles := [] }))
                          |> absorbAssets loneId sibling.assets
                          |>.removeEdge loneId sid0) :=
                        typesPreserved_trans hg2base
                          (typesPreserved_trans
                            (typesPreserved_updateNode _ sid0
                              (fun s => { s with sourceBundles := ([] : List Nat) })
                              (fun b => rfl))
                            (typesPreserved_trans
                              (typesPreserved_absorbAssets loneId sibling.assets _)
                              (typesPreserved_removeEdge _ loneId sid0)))
                      obtain ⟨sb2, hsb2, hty2⟩ := typesPreserved_some hg2 hsb
                      obtain ⟨eb2, heb2, htye2⟩ := typesPreserved_some hg2 heb
                      rw [ih _ _ _ _ hnodup2 h sid hmem sb2 eb2 hsb2 heb2
                        (by rw [hty2, htye2, htyeq]), hraR1 sid hne0]
                · rw [if_neg hone] at h
                  have hg2 : typesPreserved g
                      (((absorbAssets eid sibling.assets g).removeEdge eid
                        sid0).updateNode sid0
                        (fun s => { s with sourceBundles := sibling.sourceBundles.erase eid })) :=
                    typesPreserved_trans hg2base
                      (typesPreserved_updateNode _ sid0
                        (fun s => { s with sourceBundles := sibling.sourceBundles.erase eid })
                        (fun b => rfl))
                  obtain ⟨sb2, hsb2, hty2⟩ := typesPreserved_some hg2 hsb
                  obtain ⟨eb2, heb2, htye2⟩ := typesPreserved_some hg2 heb
                  rw [ih _ _ _ _ hnodup2 h sid hmem sb2 eb2 hsb2 heb2
                    (by rw [hty2, htye2, htyeq]), hraR1 sid hne0]
              · rw [if_neg hmemE] at h
                cases h
            · rw [if_neg hlen] at h
              obtain ⟨sb2, hsb2, hty2⟩ := typesPreserved_some hg2base hsb
              obtain ⟨eb2, heb2, htye2⟩ := typesPreserved_some hg2base heb
              rw [ih _ _ _ _ hnodup2 h sid hmem sb2 eb2 hsb2 heb2
                (by rw [hty2, htye2, htyeq]), hraR1 sid hne0]
        · -- different type: the sibling is skipped entirely
          rw [if_pos (fun hne => hty hne)] at h
          rcases List.mem_cons.mp hs with heq | hmem
          · subst heq
            rw [hsb] at hsib
            cases hsib
            exact absurd htyeq hty
          · exact ih _ _ _ _ hnodup2 h sid hmem sb eb hsb heb htyeq

theorem orphanGo_none_pres :
    ∀ (l : List (Nat × List Asset)) (g : BGraph Bundle) (j : Nat),
      g.getNode j = none → (orphanGo l g).getNode j = none := by
  intro l
  induction l with
  | nil => intro g j h; exact h
  | cons p rest ih =>
    obtain ⟨k, v⟩ := p
    intro g j h
    simp only [orphanGo]
    by_cases hv : v = []
    · rw [if_pos hv]
      refine ih _ j ?_
      rw [getNode_removeNode]
      by_cases hj : j = k
      · rw [if_pos hj]
      · rw [if_neg hj]
        exact h
    · rw [if_neg hv]
      exact ih _ j h

theorem orphanGo_removes :
    ∀ (l : List (Nat × List Asset)) (g : BGraph Bundle) (k : Nat)
      (v : List Asset), (k, v) ∈ l → v = [] →
      (orphanGo l g).getNode k = none := by
  intro l
  induction l with
  | nil =>
    intro g k v hm
    cases hm
  | cons p rest ih =>
    obtain ⟨k0, v0⟩ := p
    intro g k v hm hv
    rcases List.mem_cons.mp hm with heq | hmem
    · have he1 : k = k0 := congrArg Prod.fst heq
      have he2 : v = v0 := congrArg Prod.snd heq
      subst he1
      subst he2
      simp only [orphanGo, if_pos hv]
      exact orphanGo_none_pres rest _ k (by rw [getNode_removeNode, if_pos rfl])
    · simp only [orphanGo]
      by_cases hv0 : v0 = []
      · rw [if_pos hv0]
        exact ih _ k v hmem hv
      · rw [if_neg hv0]
        exact ih _ k v hmem hv

/-- C10: (a) when the phase-5 entry fold processes a same-type sibling, the
`reachableAsyncRoots.get(siblingId).delete(entryAsset)` call leaves the map
with an entry for the sibling equal to its previous set (the empty set if
it had none — the DefaultMap auto-creates it) minus the entry asset;
(b) the final orphan-drop loop removes from the bundle graph every id whose
`reachableAsyncRoots` entry is the empty set — including bundles, such as
shared bundles, that were never lazily reached and whose entry exists only
because of that auto-creation. -/
theorem c10_fold_autovivify_and_orphan_drop :
    (∀ (e : Asset) (eid : Nat) (sibs : List Nat) (g : BGraph Bundle)
      (raR : List (Nat × List Asset)) (g' : BGraph Bundle)
      (raR' : List (Nat × List Asset)),
      sibs.Nodup →
      foldSiblings e eid sibs g raR = .ok (g', raR') →
      ∀ sid, sid ∈ sibs →
        ∀ sb eb, g.getNode sid = some sb → g.getNode eid = some eb →
          sb.type = eb.type →
          alGet raR' sid = some (((alGet raR sid).getD []).erase e)) ∧
    (∀ (raRl : List (Nat × List Asset)) (g : BGraph Bundle) (k : Nat)
      (v : List Asset), (k, v) ∈ raRl → v = [] →
      (orphanLoop raRl g).getNode k = none) :=
  ⟨foldSiblings_autovivify, fun raRl g k v hm hv => orphanGo_removes raRl g k v hm hv⟩

def c10wSib : Bundle := createBundleWithAsset s4S "t" false none

def c10wG : BGraph Bundle := ⟨2, [(0, c1wE1), (1, c10wSib)], [(0, 1)]⟩

def c10wG2 : BGraph Bundle :=
  match foldSiblings s4E1 0 [1] c10wG [] with
  | .ok (g, _) => g
  | .error _ => BGraph.empty

def c10wRaR2 : List (Nat × List Asset) :=
  match foldSiblings s4E1 0 [1] c10wG [] with
  | .ok (_, r) => r
  | .error _ => []

theorem c10_witness :
    alGet c10wRaR2 1 =
      some (((alGet ([] : List (Nat × List Asset)) 1).getD []).erase s4E1) ∧
    (orphanLoop c10wRaR2 c10wG2).getNode 1 = none := by
  have h := c10_fold_autovivify_and_orphan_drop
  refine ⟨h.1 s4E1 0 [1] c10wG [] c10wG2 c10wRaR2 (by decide) rfl 1 (by decide)
    c10wSib c1wE1 rfl rfl rfl, ?_⟩
  exact h.2 c10wRaR2 c10wG2 1 [] (by decide) rfl

/-! ## Phase-5 shared-bundle invariant (C2) -/

theorem mergeGo_size (cfg : BundlerCfg) :
    ∀ (snapshot : List (Nat × Bundle)) (g g' : BGraph Bundle),
      mergeGo cfg snapshot g = .ok g' →
      (∀ j bj, g.getNode j = some bj → bj.sourceBundles ≠ [] →
        j ∈ snapshot.map Prod.fst ∨ cfg.minBundleSize ≤ bj.size) →
      ∀ j bj, g'.getNode j = some bj → bj.sourceBundles ≠ [] →
        cfg.minBundleSize ≤ bj.size := by
  intro snapshot
  induction snapshot with
  | nil =>
    intro g g' h hinv j bj hj hne
    cases h
    rcases hinv j bj hj hne with hmem | hge
    · cases hmem
    · exact hge
  | cons p rest ih =>
    obtain ⟨id0, bsn⟩ := p
    intro g g' h hinv j bj hj hne
    simp only [mergeGo] at h
    cases hcur : g.getNode id0 with
    | none =>
      rw [hcur] at h
      refine ih g g' h ?_ j bj hj hne
      intro j2 bj2 hj2 hne2
      rcases hinv j2 bj2 hj2 hne2 with hmem | hge
      · rcases List.mem_cons.mp hmem with heq | hmem2
        · rw [heq] at hj2
          rw [hj2] at hcur
          cases hcur
        · exact Or.inl hmem2
      · exact Or.inr hge
    | some b0 =>
      rw [hcur] at h
      replace h : (if b0.sourceBundles.length > 0 ∧ b0.size < cfg.minBundleSize then
          match removeBundle g id0 with
          | Except.ok g2 => mergeGo cfg rest g2
          | Except.error e => Except.error e
        else mergeGo cfg rest g) = Except.ok g' := h
      by_cases hcond : b0.sourceBundles.length > 0 ∧ b0.size < cfg.minBundleSize
      · rw [if_pos hcond] at h
        cases hrb : removeBundle g id0 with
        | error e =>
          rw [hrb] at h
          cases h
        | ok g1 =>
          rw [hrb] at h
          refine ih g1 g' h ?_ j bj hj hne
          intro j2 bj2 hj2 hne2
          obtain ⟨hjne, bj0, hbj0, hgrew⟩ :=
            removeBundle_rev g id0 b0 g1 hcur hrb j2 bj2 hj2
          have hne0 : bj0.sourceBundles ≠ [] := by
            rw [hgrew.2.1] at hne2
            exact hne2
          rcases hinv j2 bj0 hbj0 hne0 with hmem | hge
          · rcases List.mem_cons.mp hmem with heq | hmem2
            · exact absurd heq hjne
            · exact Or.inl hmem2
          · exact Or.inr (hge.trans hgrew.2.2.1)
      · rw [if_neg hcond] at h
        refine ih g g' h ?_ j bj hj hne
        intro j2 bj2 hj2 hne2
        rcases hinv j2 bj2 hj2 hne2 with hmem | hge
        · rcases List.mem_cons.mp hmem with heq | hmem2
          · right
            have hbb : bj2 = b0 := by
              rw [heq] at hj2
              exact Option.some.inj (hj2.symm.trans hcur)
            subst hbb
            by_cases hsz : bj2.size < cfg.minBundleSize
            · exact absurd ⟨List.length_pos.mpr hne2, hsz⟩ hcond
            · exact Nat.le_of_not_lt hsz
          · exact Or.inl hmem2
        · exact Or.inr hge

/-! ## C2 — the shared-bundle invariant of the final graph -/

/-- Decidable form of "every shared bundle of `g` has at least two source
bundles" (true of every state reaching phase 5: shared bundles are only
created from reachable arrays of length at least two, since singleton
reachable sets reuse the root bundle through the bundles-map key). -/
def sharedHaveTwoSources (g : BGraph Bundle) : Bool :=
  g.nodes.all (fun p => p.2.sourceBundles.isEmpty ||
    decide (2 ≤ p.2.sourceBundles.length))

theorem sharedHaveTwoSources_spec (g : BGraph Bundle)
    (h : sharedHaveTwoSources g = true) :
    ∀ j bj, g.getNode j = some bj → bj.sourceBundles ≠ [] →
      2 ≤ bj.sourceBundles.length := by
  intro j bj hj hne
  have hmem : (j, bj) ∈ g.nodes := alGet_mem _ _ _ hj
  have hall := (List.all_eq_true.mp h) (j, bj) hmem
  rcases Bool.or_eq_true_iff.mp hall with h1 | h2
  · exact absurd (List.isEmpty_iff.mp h1) hne
  · exact of_decide_eq_true h2

/-- The phase-5 shared-bundle invariant: every bundle with nonempty
`sourceBundles` has at least two sources and size at least
`minBundleSize`. -/
def P2 (cfg : BundlerCfg) (g : BGraph Bundle) : Prop :=
  ∀ j bj, g.getNode j = some bj → bj.sourceBundles ≠ [] →
    2 ≤ bj.sourceBundles.length ∧ cfg.minBundleSize ≤ bj.size

theorem absorbAssets_rev (targetId : Nat) :
    ∀ (l : List Asset) (g : BGraph Bundle) (j : Nat) (b' : Bundle),
      (absorbAssets targetId l g).getNode j = some b' →
      ∃ b, g.getNode j = some b ∧ b'.sourceBundles = b.sourceBundles ∧
        b.size ≤ b'.size := by
  intro l
  induction l with
  | nil =>
    intro g j b' h
    exact ⟨b', h, rfl, le_refl _⟩
  | cons a rest ih =>
    intro g j b' h
    simp only [absorbAssets, List.foldl_cons] at h
    replace h : (absorbAssets targetId rest (g.updateNode targetId (fun eb =>
        { eb with assets := slAdd eb.assets a,
                  size := eb.size + a.statsSize }))).getNode j = some b' := h
    obtain ⟨b1, hb1, hsrc, hsz⟩ := ih _ j b' h
    rw [getNode_updateNode] at hb1
    by_cases hj : j = targetId
    · rw [if_pos hj] at hb1
      cases hg : g.getNode j with
      | none =>
        rw [hg] at hb1
        cases hb1
      | some b0 =>
        rw [hg] at hb1
        cases hb1
        exact ⟨b0, rfl, hsrc, le_trans (Nat.le_add_right _ _) hsz⟩
    · rw [if_neg hj] at hb1
      exact ⟨b1, hb1, hsrc, hsz⟩

theorem P2_absorb (cfg : BundlerCfg) (targetId : Nat) (l : List Asset)
    (g : BGraph Bundle) (h : P2 cfg g) : P2 cfg (absorbAssets targetId l g) := by
  intro j bj hj hne
  obtain ⟨b, hb, hsrc, hsz⟩ := absorbAssets_rev targetId l g j bj hj
  have hp := h j b hb (by rw [hsrc] at hne; exact hne)
  exact ⟨by rw [hsrc]; exact hp.1, le_trans hp.2 hsz⟩

theorem P2_removeEdge (cfg : BundlerCfg) (g : BGraph Bundle) (u v : Nat)
    (h : P2 cfg g) : P2 cfg (g.removeEdge u v) := by
  intro j bj hj hne
  rw [getNode_removeEdge] at hj
  exact h j bj hj hne

theorem P2_clearSources (cfg : BundlerCfg) (g : BGraph Bundle) (sid : Nat)
    (h : P2 cfg g) :
    P2 cfg (g.updateNode sid
      (fun s => { s with sourceBundles := ([] : List Nat) })) := by
  intro j bj hj hne
  rw [getNode_updateNode] at hj
  by_cases hjs : j = sid
  · rw [if_pos hjs] at hj
    cases hg : g.getNode j with
    | none =>
      rw [hg] at hj
      cases hj
    | some b0 =>
      rw [hg] at hj
      cases hj
      exact absurd rfl hne
  · rw [if_neg hjs] at hj
    exact h j bj hj hne

theorem P2_splice (cfg : BundlerCfg) (g : BGraph Bundle) (sid : Nat)
    (srcs : List Nat) (h : P2 cfg g) (h2 : 2 ≤ srcs.length)
    (hsz : ∀ b0, g.getNode sid = some b0 → cfg.minBundleSize ≤ b0.size) :
    P2 cfg (g.updateNode sid (fun s => { s with sourceBundles := srcs })) := by
  intro j bj hj hne
  rw [getNode_updateNode] at hj
  by_cases hjs : j = sid
  · rw [if_pos hjs] at hj
    cases hg : g.getNode j with
    | none =>
      rw [hg] at hj
      cases hj
    | some b0 =>
      rw [hg] at hj
      cases hj
      refine ⟨h2, hsz b0 ?_⟩
      rw [← hjs]
      exact hg
  · rw [if_neg hjs] at hj
    exact h j bj hj hne

theorem foldSiblings_P2 (cfg : BundlerCfg) (e : Asset) (eid : Nat) :
    ∀ (sibs : List Nat) (g : BGraph Bundle) (raR : List (Nat × List Asset))
      (g' : BGraph Bundle) (raR' : List (Nat × List Asset)),
      foldSiblings e eid sibs g raR = .ok (g', raR') →
      P2 cfg g → P2 cfg g' := by
  intro sibs
  induction sibs with
  | nil =>
    intro g raR g' raR' h hP
    cases h
    exact hP
  | cons sid rest ih =>
    intro g raR g' raR' h hP
    simp only [foldSiblings] at h
    cases hsib : g.getNode sid with
    | none =>
      rw [hsib, nt_none, except_bind_err] at h
      cases h
    | some sibling =>
      rw [hsib, nt_some, except_bind_ok] at h
      cases heb : g.getNode eid with
      | none =>
        rw [heb, nt_none, except_bind_err] at h
        cases h
      | some entryBundle =>
        rw [heb, nt_some, except_bind_ok] at h
        by_cases hty : sibling.type ≠ entryBundle.type
        · rw [if_pos hty] at h
          exact ih _ _ _ _ h hP
        · rw [if_neg hty] at h
          have hP2a : P2 cfg ((absorbAssets eid sibling.assets g).removeEdge eid sid) :=
            P2_removeEdge cfg _ eid sid (P2_absorb cfg eid sibling.assets g hP)
          by_cases hlen : sibling.sourceBundles.length > 1
          · rw [if_pos hlen] at h
            have hneS : sibling.sourceBundles ≠ [] :=
              List.length_pos.mp (Nat.lt_trans Nat.zero_lt_one hlen)
            by_cases hmem : eid ∈ sibling.sourceBundles
            · rw [if_pos hmem] at h
              by_cases hone : (sibling.sourceBundles.erase eid).length = 1
              · rw [if_pos hone] at h
                cases hhd : (sibling.sourceBundles.erase eid).head? with
                | none =>
                  rw [hhd, nt_none, except_bind_err] at h
                  cases h
                | some loneId =>
                  rw [hhd, nt_some, except_bind_ok] at h
                  cases hlone : ((absorbAssets eid sibling.assets g
                      |>.removeEdge eid sid).updateNode sid
                      (fun s => { s with sourceBundles := [] })).getNode loneId with
                  | none =>
                    rw [hlone, nt_none, except_bind_err] at h
                    cases h
                  | some lone =>
                    rw [hlone, nt_some, except_bind_ok] at h
                    refine ih _ _ _ _ h ?_
                    exact P2_removeEdge cfg _ loneId sid
                      (P2_absorb cfg loneId sibling.assets _
                        (P2_clearSources cfg _ sid hP2a))
              · rw [if_neg hone] at h
                refine ih _ _ _ _ h ?_
                refine P2_splice cfg _ sid _ hP2a ?_ ?_
                · have herl : (sibling.sourceBundles.erase eid).length =
                      sibling.sourceBundles.length - 1 :=
                    List.length_erase_of_mem hmem
                  omega
                · intro b0 hb0
                  rw [getNode_removeEdge] at hb0
                  obtain ⟨b, hb, hbsrc, hbsz⟩ :=
                    absorbAssets_rev eid sibling.assets g sid b0 hb0
                  rw [hsib] at hb
                  cases hb
                  exact le_trans (hP sid sibling hsib hneS).2 hbsz
            · rw [if_neg hmem] at h
              cases h
          · rw [if_neg hlen] at h
            exact ih _ _ _ _ h hP2a

theorem foldEntry_P2 (cfg : BundlerCfg) (bundleRoots : List (Asset × (Nat × Nat)))
    (e : Asset) (g : BGraph Bundle) (raR : List (Nat × List Asset))
    (g' : BGraph Bundle) (raR' : List (Nat × List Asset))
    (h : foldEntry bundleRoots e g raR = .ok (g', raR'))
    (hP : P2 cfg g) : P2 cfg g' := by
  simp only [foldEntry] at h
  cases ht : alGet bundleRoots e with
  | none =>
    rw [ht, nt_none, except_bind_err] at h
    cases h
  | some t =>
    rw [ht, nt_some, except_bind_ok] at h
    cases hg : g.getNode t.1 with
    | none =>
      rw [hg, nt_none, except_bind_err] at h
      cases h
    | some eb =>
      rw [hg, nt_some, except_bind_ok] at h
      exact foldSiblings_P2 cfg e t.1 _ _ _ _ _ h hP

theorem foldLoop_P2 (cfg : BundlerCfg) (bundleRoots : List (Asset × (Nat × Nat))) :
    ∀ (es : List Asset) (g : BGraph Bundle) (raR : List (Nat × List Asset))
      (g' : BGraph Bundle) (raR' : List (Nat × List Asset)),
      foldLoop bundleRoots es g raR = .ok (g', raR') →
      P2 cfg g → P2 cfg g' := by
  intro es
  induction es with
  | nil =>
    intro g raR g' raR' h hP
    cases h
    exact hP
  | cons e rest ih =>
    intro g raR g' raR' h hP
    simp only [foldLoop] at h
    cases hfe : foldEntry bundleRoots e g raR with
    | error msg =>
      rw [hfe, except_bind_err] at h
      cases h
    | ok pr =>
      rw [hfe, except_bind_ok] at h
      obtain ⟨g1, raR1⟩ := pr
      replace h : foldLoop bundleRoots rest g1 raR1 = .ok (g', raR') := h
      exact ih _ _ _ _ h (foldEntry_P2 cfg bundleRoots e g raR g1 raR1 hfe hP)

/-- Surviving nodes of the orphan drop keep their exact values. -/
theorem orphanGo_sub :
    ∀ (l : List (Nat × List Asset)) (g : BGraph Bundle) (j : Nat) (b : Bundle),
      (orphanGo l g).getNode j = some b → g.getNode j = some b := by
  intro l
  induction l with
  | nil =>
    intro g j b h
    exact h
  | cons p rest ih =>
    obtain ⟨k, v⟩ := p
    intro g j b h
    simp only [orphanGo] at h
    by_cases hv : v = []
    · rw [if_pos hv] at h
      have h2 := ih _ j b h
      rw [getNode_removeNode] at h2
      by_cases hj : j = k
      · rw [if_pos hj] at h2
        cases h2
      · rw [if_neg hj] at h2
        exact h2
    · rw [if_neg hv] at h
      exact ih _ j b h

/-- C2: in the final emitted plan, every shared bundle (a bundle with
nonempty `sourceBundles`) has `sourceBundles.length >= 2` and
`size >= config.minBundleSize`: no shared bundle with a single source or
below the size threshold survives phase 5.  The two-source side is an
invariant carried into phase 5 (`sharedHaveTwoSources`, true of every
planner state since singleton reachable sets reuse the root bundle); the
merge loop enforces the size bound, the fold only grows sizes and shrinks
source lists from length >= 2 to length >= 2 or to empty, and the orphan
drop only deletes nodes. -/
theorem c2_shared_bundle_final_invariant (cfg : BundlerCfg) (st st' : PlanState)
    (hTwo : sharedHaveTwoSources st.bundleGraph = true)
    (h : phase5 cfg st = .ok st') :
    ∀ id b, st'.bundleGraph.getNode id = some b → b.sourceBundles ≠ [] →
      2 ≤ b.sourceBundles.length ∧ cfg.minBundleSize ≤ b.size := by
  simp only [phase5] at h
  cases hm : mergeLoop cfg st.bundleGraph with
  | error msg =>
    rw [hm, except_bind_err] at h
    cases h
  | ok g1 =>
    rw [hm, except_bind_ok] at h
    simp only [mergeLoop] at hm
    cases hf : foldLoop st.bundleRoots (st.entries.map (·.1)) g1
        st.reachableAsyncRoots with
    | error msg =>
      rw [hf, except_bind_err] at h
      cases h
    | ok pr =>
      rw [hf, except_bind_ok] at h
      obtain ⟨g2, raR2⟩ := pr
      replace h :
          Except.ok
            ({ st with
                bundleGraph := orphanLoop raR2 g2,
                reachableAsyncRoots := raR2 } : PlanState) = Except.ok st' := h
      cases h
      have hP1 : P2 cfg g1 := by
        intro j bj hj hne
        have hfacts := mergeGo_facts cfg st.bundleGraph.nodes st.bundleGraph g1 hm
        obtain ⟨bj0, hbj0, hgrew⟩ := hfacts.1 j bj hj
        have hne0 : bj0.sourceBundles ≠ [] := by
          rw [← hgrew.2.1]
          exact hne
        constructor
        · rw [hgrew.2.1]
          exact sharedHaveTwoSources_spec st.bundleGraph hTwo j bj0 hbj0 hne0
        · refine mergeGo_size cfg st.bundleGraph.nodes st.bundleGraph g1 hm ?_ j bj hj hne
          intro j2 bj2 hj2 _
          exact Or.inl (List.mem_map_of_mem Prod.fst (alGet_mem _ _ _ hj2))
      have hP2 : P2 cfg g2 :=
        foldLoop_P2 cfg st.bundleRoots _ g1 st.reachableAsyncRoots g2 raR2 hf hP1
      intro id b hb hne
      exact hP2 id b (orphanGo_sub raR2 g2 id b hb) hne

def c2wSh : Bundle :=
  { createBundleNoAsset "t" "js" "browser" with
      assets := [c3X], size := 30000, sourceBundles := [0, 1] }

def c2wSt : PlanState :=
  { initPlanState with
      bundleGraph := ⟨3, [(0, c1wE1), (1, c1wE2), (2, c2wSh)], [(0, 2), (1, 2)]⟩ }

def c2wSt2 : PlanState :=
  match phase5 cfg20k c2wSt with
  | .ok st => st
  | .error _ => c2wSt

theorem c2_witness :
    sharedHaveTwoSources c2wSt.bundleGraph = true ∧
    phase5 cfg20k c2wSt = .ok c2wSt2 ∧
    c2wSt2.bundleGraph.getNode 2 = some c2wSh ∧
    (2 ≤ c2wSh.sourceBundles.length ∧ cfg20k.minBundleSize ≤ c2wSh.size) :=
  ⟨by decide, rfl, rfl,
    c2_shared_bundle_final_invariant cfg20k c2wSt c2wSt2 (by decide) rfl 2 c2wSh
      rfl (by decide)⟩
